import Mathlib

/-!
# A shallow embedding of the bustub page-level buffer pool

This file models, in Lean, the C++ sources of the buffer-pool core:

* `src/buffer/lru_k_replacer.cpp`   — the LRU-K replacer;
* `src/buffer/buffer_pool_manager.cpp` — frames, page table, free list,
  miss resolution, delete and flush paths;
* `src/storage/page/page_guard.cpp` — the read / write page guards;
* `src/storage/disk/disk_scheduler.cpp` — modelled through its synchronous
  "schedule a request, wait on the completion future" usage pattern.

Modelling conventions, used throughout:

* The embedding is sequential: one thread runs one operation at a time, which
  is the semantics of the code when every latch acquisition succeeds
  immediately.  To still reason about the *latch discipline*, every operation
  records the pool-latch acquisitions/releases and every blocking
  `future::get()` wait in an event list (`LatchEvent`).  Per-frame
  reader-writer latches are not given events; no verified claim concerns them.
* `std::unordered_map`s are modelled as association lists (`page_table_`) or
  as a key list plus total lookup functions (`node_store_` / `access_history_`
  / `evictable_`).  Iteration order of an `unordered_map` is unspecified in
  C++; the model fixes insertion order.  Every property proved about an
  iteration (the `Evict` scan, `FindPageIdByFrame`) is shown under invariants
  (distinct timestamps, injective page table) that make the result
  independent of the iteration order.
* Erasing a key from `access_history_` / `evictable_` is modelled by setting
  the lookup function back to the default value (`[]` / `false`); the code
  never reads those maps for an untracked frame without first re-inserting it.
* `size_t` values are modelled as `Nat`.  The only spot where wrap-around is
  reachable at all is `pin_count_.fetch_sub`, which is modelled exactly
  (`0 - 1` wraps to `2^64 - 1`); counters that are only ever incremented
  (timestamps, pin increments, page ids) cannot wrap in any feasible
  execution and are modelled as unbounded.
* Fallible C++ (a thrown exception, a failed `BUSTUB_ENSURE`, an
  out-of-bounds access) is modelled as `Option` with `none` for the failure.
* `BUSTUB_PAGE_SIZE` and `INVALID_PAGE_ID` live in `common/config.h`, which
  is not among the sources; the page size is kept as a parameter of the pool
  and `INVALID_PAGE_ID` is the standard sentinel `-1` (the spec: "A sentinel
  value denotes invalid", page ids are otherwise non-negative).
-/

namespace Bustub

abbrev FrameId := Nat
abbrev PageId := Nat

/-- `std::numeric_limits<size_t>::max()`. -/
def USIZE_MAX : Nat := 2 ^ 64 - 1

/-- `INVALID_PAGE_ID` from `common/config.h` (not under the sources); the
standard sentinel for `page_id_t`. -/
def INVALID_PAGE_ID : Int := -1

/-! ## LRU-K replacer (`src/buffer/lru_k_replacer.cpp`) -/

/-- The state of `LRUKReplacer`.  `node_store` is the key list of
`node_store_` (iteration order of the `unordered_map` fixed as insertion
order); `hist f` is `access_history_[f]`, oldest timestamp first, and
`evict_flag f` is `evictable_[f]`, both defaulting to the erased value for
untracked frames. -/
structure LRUKReplacer where
  replacer_size : Nat
  k : Nat
  node_store : List FrameId
  hist : FrameId → List Nat
  evict_flag : FrameId → Bool
  curr_size : Nat
  current_timestamp : Nat

/-- A fresh replacer, as built by the constructor
`LRUKReplacer(num_frames, k)`. -/
def LRUKReplacer.new (num_frames k : Nat) : LRUKReplacer :=
  { replacer_size := num_frames, k := k, node_store := [],
    hist := fun _ => [], evict_flag := fun _ => false,
    curr_size := 0, current_timestamp := 0 }

/-- The loop accumulator of `LRUKReplacer::Evict`: the local variables
`evict_frame` (`frame_id_t`, `-1` for "none yet"), `max_backward_k_distance`,
`earliest_timestamp` and `found_inf`. -/
structure EvictAcc where
  evict_frame : Int
  max_bkd : Nat
  earliest : Nat
  found_inf : Bool
deriving DecidableEq

/-- One iteration of the `for (auto& [frame_id, node] : node_store_)` loop in
`LRUKReplacer::Evict`. -/
def evictStep (r : LRUKReplacer) (acc : EvictAcc) (fid : FrameId) : EvictAcc :=
  if r.evict_flag fid = false then acc
  else if (r.hist fid).length < r.k then
    if r.hist fid = [] then acc
    else
      let oldest := (r.hist fid).headD 0
      if acc.found_inf = false ∨ oldest < acc.earliest then
        { acc with evict_frame := (fid : Int), earliest := oldest, found_inf := true }
      else acc
  else if acc.found_inf = false then
    let kth := (r.hist fid).headD 0
    let d := r.current_timestamp - kth
    if acc.evict_frame = -1 ∨ acc.max_bkd < d then
      { acc with evict_frame := (fid : Int), max_bkd := d }
    else acc
  else acc

/-- The full scan of `node_store_` in `LRUKReplacer::Evict`, starting from
`evict_frame = -1`, `max_backward_k_distance = 0`,
`earliest_timestamp = SIZE_MAX`, `found_inf = false`. -/
def LRUKReplacer.evictLoop (r : LRUKReplacer) : EvictAcc :=
  r.node_store.foldl (evictStep r) ⟨-1, 0, USIZE_MAX, false⟩

/-- Erase every trace of `fid` from the replacer (the three `erase` calls plus
`curr_size_--` shared by `Evict` and `Remove`). -/
def LRUKReplacer.eraseFrame (r : LRUKReplacer) (fid : FrameId) : LRUKReplacer :=
  { r with node_store := r.node_store.erase fid,
           hist := fun f => if f = fid then [] else r.hist f,
           evict_flag := fun f => if f = fid then false else r.evict_flag f,
           curr_size := r.curr_size - 1 }

/-- `LRUKReplacer::Evict`: returns the chosen victim (if any) and the new
replacer state. -/
def LRUKReplacer.Evict (r : LRUKReplacer) : Option FrameId × LRUKReplacer :=
  if r.curr_size = 0 then (none, r)
  else
    let acc := r.evictLoop
    if acc.evict_frame = -1 then (none, r)
    else (some acc.evict_frame.toNat, r.eraseFrame acc.evict_frame.toNat)

/-- `LRUKReplacer::RecordAccess`.  `none` models the thrown
`std::invalid_argument` on an out-of-range id (the `frame_id < 0` half of the
check is vacuous for `Nat` ids).  The `access_type` argument is unused by the
source and omitted. -/
def LRUKReplacer.RecordAccess (r : LRUKReplacer) (fid : FrameId) : Option LRUKReplacer :=
  if r.replacer_size ≤ fid then none
  else
    let ts := r.current_timestamp + 1
    let r1 : LRUKReplacer :=
      if fid ∈ r.node_store then { r with current_timestamp := ts }
      else { r with current_timestamp := ts,
                    node_store := r.node_store ++ [fid],
                    hist := fun f => if f = fid then [] else r.hist f,
                    evict_flag := fun f => if f = fid then false else r.evict_flag f }
    let h := r1.hist fid ++ [ts]
    let h2 := if r1.k < h.length then h.tail else h
    some { r1 with hist := fun f => if f = fid then h2 else r1.hist f }

/-- `LRUKReplacer::SetEvictable`.  `none` models the thrown exception on an
out-of-range id; an untracked in-range id is a silent no-op. -/
def LRUKReplacer.SetEvictable (r : LRUKReplacer) (fid : FrameId) (b : Bool) :
    Option LRUKReplacer :=
  if r.replacer_size ≤ fid then none
  else if fid ∈ r.node_store then
    let cur := r.evict_flag fid
    if cur = true ∧ b = false then
      some { r with evict_flag := fun f => if f = fid then false else r.evict_flag f,
                    curr_size := r.curr_size - 1 }
    else if cur = false ∧ b = true then
      some { r with evict_flag := fun f => if f = fid then true else r.evict_flag f,
                    curr_size := r.curr_size + 1 }
    else some r
  else some r

/-- `LRUKReplacer::Remove`.  Untracked ids return silently (the source checks
`node_store_` before any range check); a tracked non-evictable id throws. -/
def LRUKReplacer.Remove (r : LRUKReplacer) (fid : FrameId) : Option LRUKReplacer :=
  if fid ∈ r.node_store then
    if r.evict_flag fid = false then none
    else some (r.eraseFrame fid)
  else some r

/-- `LRUKReplacer::Size`. -/
def LRUKReplacer.Size (r : LRUKReplacer) : Nat := r.curr_size

/-! ## Disk channel and latch events -/

/-- A `DiskRequest` as scheduled by the manager / guards: page id, direction,
and the deallocate flag used by `DeletePage`.  The data pointer and the
completion promise are represented semantically: the synchronous
"schedule + `future::get()`" pattern is a single step that moves bytes
between the frame and the disk image and appends the request to the trace. -/
structure DiskRequest where
  page_id : PageId
  is_write : Bool
  is_deallocate : Bool
deriving DecidableEq

/-- Latch-discipline events recorded by every operation: acquisitions and
releases of the pool latch `bpm_latch_`, and each blocking `fut.get()` wait
for a disk completion. -/
inductive LatchEvent where
  | acquirePool
  | releasePool
  | ioWait (req : DiskRequest)
deriving DecidableEq

/-! ## Frames and the buffer pool manager
(`src/buffer/buffer_pool_manager.cpp`) -/

/-- `FrameHeader`: one in-memory slot.  `data` is the `BUSTUB_PAGE_SIZE`-byte
buffer (bytes as `Nat`s). -/
structure FrameHeader where
  frame_id : FrameId
  data : List Nat
  pin_count : Nat
  is_dirty : Bool
deriving DecidableEq

/-- `FrameHeader::Reset`: zero the buffer, zero the pin count, clear dirty.
`page_size` is `BUSTUB_PAGE_SIZE` (a config constant, kept as a parameter). -/
def FrameHeader.Reset (page_size : Nat) (fh : FrameHeader) : FrameHeader :=
  { fh with data := List.replicate page_size 0, pin_count := 0, is_dirty := false }

/-- The `FrameHeader(frame_id)` constructor: a zeroed buffer, then `Reset`. -/
def FrameHeader.new (page_size : Nat) (i : FrameId) : FrameHeader :=
  FrameHeader.Reset page_size { frame_id := i, data := List.replicate page_size 0,
                                pin_count := 0, is_dirty := false }

/-- The state owned by `BufferPoolManager`, together with the (external)
disk-manager image `disk`, the list of scheduled disk requests `trace`, and
the latch-event log `events`. -/
structure BufferPoolManager where
  num_frames : Nat
  page_size : Nat
  next_page_id : Nat
  frames : List FrameHeader
  free_frames : List FrameId
  page_table : List (PageId × FrameId)
  replacer : LRUKReplacer
  disk : PageId → List Nat
  trace : List DiskRequest
  events : List LatchEvent

/-- `page_table_.find(pid)`, an `unordered_map` lookup. -/
def ptLookup (pt : List (PageId × FrameId)) (pid : PageId) : Option FrameId :=
  (pt.find? (fun e => e.1 = pid)).map (·.2)

/-- `page_table_.erase(pid)`. -/
def ptErase (pt : List (PageId × FrameId)) (pid : PageId) : List (PageId × FrameId) :=
  pt.filter (fun e => e.1 ≠ pid)

/-- The file-local helper `FindPageIdByFrame`: scan the page table for the
page currently mapped to `fid`. -/
def FindPageIdByFrame (pt : List (PageId × FrameId)) (fid : FrameId) : Option PageId :=
  (pt.find? (fun e => e.2 = fid)).map (·.1)

def BufferPoolManager.pushEvent (bpm : BufferPoolManager) (e : LatchEvent) :
    BufferPoolManager :=
  { bpm with events := bpm.events ++ [e] }

def BufferPoolManager.setFrame (bpm : BufferPoolManager) (fid : FrameId)
    (fh : FrameHeader) : BufferPoolManager :=
  { bpm with frames := bpm.frames.set fid fh }

/-- Schedule a write of `data` for page `pid` and wait on the completion
future: the disk image is updated, the request is traced, the wait is an
`ioWait` event. -/
def BufferPoolManager.scheduleWrite (bpm : BufferPoolManager) (pid : PageId)
    (data : List Nat) : BufferPoolManager :=
  { bpm with disk := fun q => if q = pid then data else bpm.disk q,
             trace := bpm.trace ++ [⟨pid, true, false⟩],
             events := bpm.events ++ [.ioWait ⟨pid, true, false⟩] }

/-- Schedule a read of page `pid` into frame `fid` and wait on the completion
future: the frame buffer receives the on-disk image (`DiskManager::ReadPage`
populates the caller's buffer, per the disk-channel contract). -/
def BufferPoolManager.scheduleRead (bpm : BufferPoolManager) (pid : PageId)
    (fid : FrameId) : Option BufferPoolManager :=
  match bpm.frames[fid]? with
  | none => none
  | some fh =>
    some { bpm with frames := bpm.frames.set fid { fh with data := bpm.disk pid },
                    trace := bpm.trace ++ [⟨pid, false, false⟩],
                    events := bpm.events ++ [.ioWait ⟨pid, false, false⟩] }

/-- Schedule the deallocate-flagged request issued by `DeletePage` and wait on
its completion. -/
def BufferPoolManager.scheduleDealloc (bpm : BufferPoolManager) (pid : PageId) :
    BufferPoolManager :=
  { bpm with trace := bpm.trace ++ [⟨pid, false, true⟩],
             events := bpm.events ++ [.ioWait ⟨pid, false, true⟩] }

/-- The `BufferPoolManager` constructor: `num_frames` fresh frames, all of
them in the free list, an empty page table, a fresh replacer.  The body runs
under `bpm_latch_`. -/
def BufferPoolManager.new (num_frames page_size k_dist : Nat)
    (disk : PageId → List Nat) : BufferPoolManager :=
  { num_frames := num_frames, page_size := page_size, next_page_id := 0,
    frames := (List.range num_frames).map (FrameHeader.new page_size),
    free_frames := List.range num_frames,
    page_table := [],
    replacer := LRUKReplacer.new num_frames k_dist,
    disk := disk, trace := [],
    events := [.acquirePool, .releasePool] }

/-- `BufferPoolManager::Size`. -/
def BufferPoolManager.size (bpm : BufferPoolManager) : Nat := bpm.num_frames

/-- `BufferPoolManager::NewPage`: `next_page_id_.fetch_add(1)`. -/
def BufferPoolManager.NewPage (bpm : BufferPoolManager) :
    PageId × BufferPoolManager :=
  (bpm.next_page_id, { bpm with next_page_id := bpm.next_page_id + 1 })

/-- `BufferPoolManager::DeletePage`.  The whole body runs under a
`scoped_lock` on `bpm_latch_`, including the wait for the deallocation
completion.  `none` models `frames_.at` throwing or `SetEvictable`
throwing. -/
def BufferPoolManager.DeletePage (bpm : BufferPoolManager) (pid : PageId) :
    Option (Bool × BufferPoolManager) :=
  let bpm := bpm.pushEvent .acquirePool
  match ptLookup bpm.page_table pid with
  | some fid =>
    match bpm.frames[fid]? with
    | none => none
    | some fh =>
      if 0 < fh.pin_count then some (false, bpm.pushEvent .releasePool)
      else
        let bpm := { bpm with page_table := ptErase bpm.page_table pid }
        match bpm.replacer.SetEvictable fid false with
        | none => none
        | some rep =>
          let bpm := { bpm with replacer := rep }
          let bpm := bpm.setFrame fid (FrameHeader.Reset bpm.page_size fh)
          let bpm := { bpm with free_frames := bpm.free_frames ++ [fid] }
          let bpm := bpm.scheduleDealloc pid
          some (true, bpm.pushEvent .releasePool)
  | none =>
    let bpm := bpm.scheduleDealloc pid
    some (true, bpm.pushEvent .releasePool)

/-! ## Page guards (`src/storage/page/page_guard.cpp`)

A guard value is the handle's observable fields: `page_id_` (a `page_id_t`,
so an `Int` that is `INVALID_PAGE_ID` once inert), the frame it references
(`frame_` is a `shared_ptr<FrameHeader>` into `frames_`; the model keeps the
index), and `is_valid_`.  Guard operations act on the pool state, which owns
the frame, the replacer and the disk channel. -/

structure ReadPageGuard where
  page_id : Int
  frame_id : FrameId
  is_valid : Bool
deriving DecidableEq

structure WritePageGuard where
  page_id : Int
  frame_id : FrameId
  is_valid : Bool
deriving DecidableEq

/-- The `ReadPageGuard` five-argument constructor: take the frame latch
shared, `pin_count_.fetch_add(1)`, then under a fresh `scoped_lock` on
`bpm_latch_` mark the frame non-evictable. -/
def ReadPageGuard.acquire (pid : PageId) (fid : FrameId)
    (bpm : BufferPoolManager) : Option (ReadPageGuard × BufferPoolManager) :=
  match bpm.frames[fid]? with
  | none => none
  | some fh =>
    let bpm := bpm.setFrame fid { fh with pin_count := fh.pin_count + 1 }
    let bpm := bpm.pushEvent .acquirePool
    match bpm.replacer.SetEvictable fid false with
    | none => none
    | some rep =>
      let bpm := { bpm with replacer := rep }.pushEvent .releasePool
      some (⟨(pid : Int), fid, true⟩, bpm)

/-- The `WritePageGuard` five-argument constructor: as for the read guard but
the frame latch is exclusive and, after the latch scope, `is_dirty_` is set
unconditionally. -/
def WritePageGuard.acquire (pid : PageId) (fid : FrameId)
    (bpm : BufferPoolManager) : Option (WritePageGuard × BufferPoolManager) :=
  match bpm.frames[fid]? with
  | none => none
  | some fh =>
    let bpm := bpm.setFrame fid { fh with pin_count := fh.pin_count + 1 }
    let bpm := bpm.pushEvent .acquirePool
    match bpm.replacer.SetEvictable fid false with
    | none => none
    | some rep =>
      let bpm := { bpm with replacer := rep }.pushEvent .releasePool
      match bpm.frames[fid]? with
      | none => none
      | some fh2 =>
        some (⟨(pid : Int), fid, true⟩, bpm.setFrame fid { fh2 with is_dirty := true })

/-- `ReadPageGuard::GetPageId` (`BUSTUB_ENSURE(is_valid_)` aborts on an inert
guard: `none`). -/
def ReadPageGuard.GetPageId (g : ReadPageGuard) : Option Int :=
  if g.is_valid then some g.page_id else none

/-- `ReadPageGuard::GetData`. -/
def ReadPageGuard.GetData (g : ReadPageGuard) (bpm : BufferPoolManager) :
    Option (List Nat) :=
  if g.is_valid then (bpm.frames[g.frame_id]?).map (·.data) else none

/-- `ReadPageGuard::IsDirty`. -/
def ReadPageGuard.IsDirty (g : ReadPageGuard) (bpm : BufferPoolManager) :
    Option Bool :=
  if g.is_valid then (bpm.frames[g.frame_id]?).map (·.is_dirty) else none

/-- `ReadPageGuard::Flush`: on a dirty frame, schedule a write of the frame's
bytes for `page_id_` and wait (no pool latch is taken), then clear dirty; a
clean frame is a no-op. -/
def ReadPageGuard.Flush (g : ReadPageGuard) (bpm : BufferPoolManager) :
    Option BufferPoolManager :=
  if g.is_valid = false then none
  else match bpm.frames[g.frame_id]? with
  | none => none
  | some fh =>
    if fh.is_dirty = false then some bpm
    else
      let bpm := bpm.scheduleWrite g.page_id.toNat fh.data
      some (bpm.setFrame g.frame_id { fh with is_dirty := false })

/-- `ReadPageGuard::Drop`: an inert guard returns immediately; otherwise
`fetch_sub` the pin (a `size_t`, so `0 - 1` wraps), release the frame latch,
and when the previous pin count was `1` mark the frame evictable under
`bpm_latch_`; finally invalidate the handle. -/
def ReadPageGuard.Drop (g : ReadPageGuard) (bpm : BufferPoolManager) :
    Option (ReadPageGuard × BufferPoolManager) :=
  if g.is_valid = false then some (g, bpm)
  else match bpm.frames[g.frame_id]? with
  | none => none
  | some fh =>
    let prev := fh.pin_count
    let bpm := bpm.setFrame g.frame_id
      { fh with pin_count := if prev = 0 then USIZE_MAX else prev - 1 }
    let inert : ReadPageGuard := { g with is_valid := false, page_id := INVALID_PAGE_ID }
    if prev = 1 then
      let bpm := bpm.pushEvent .acquirePool
      match bpm.replacer.SetEvictable g.frame_id true with
      | none => none
      | some rep => some (inert, ({ bpm with replacer := rep }).pushEvent .releasePool)
    else some (inert, bpm)

/-- `WritePageGuard::GetPageId`. -/
def WritePageGuard.GetPageId (g : WritePageGuard) : Option Int :=
  if g.is_valid then some g.page_id else none

/-- `WritePageGuard::GetData`. -/
def WritePageGuard.GetData (g : WritePageGuard) (bpm : BufferPoolManager) :
    Option (List Nat) :=
  if g.is_valid then (bpm.frames[g.frame_id]?).map (·.data) else none

/-- `WritePageGuard::GetDataMut`: the writable view (the bytes currently in
the frame; storing through the returned pointer is `writeThrough` below). -/
def WritePageGuard.GetDataMut (g : WritePageGuard) (bpm : BufferPoolManager) :
    Option (List Nat) :=
  if g.is_valid then (bpm.frames[g.frame_id]?).map (·.data) else none

/-- Storing `data` through the pointer returned by `GetDataMut`: the caller
overwrites the `BUSTUB_PAGE_SIZE`-byte buffer of the guarded frame. -/
def WritePageGuard.writeThrough (g : WritePageGuard) (bpm : BufferPoolManager)
    (data : List Nat) : Option BufferPoolManager :=
  if g.is_valid = false then none
  else match bpm.frames[g.frame_id]? with
  | none => none
  | some fh => some (bpm.setFrame g.frame_id { fh with data := data })

/-- `WritePageGuard::IsDirty`. -/
def WritePageGuard.IsDirty (g : WritePageGuard) (bpm : BufferPoolManager) :
    Option Bool :=
  if g.is_valid then (bpm.frames[g.frame_id]?).map (·.is_dirty) else none

/-- `WritePageGuard::Flush`. -/
def WritePageGuard.Flush (g : WritePageGuard) (bpm : BufferPoolManager) :
    Option BufferPoolManager :=
  if g.is_valid = false then none
  else match bpm.frames[g.frame_id]? with
  | none => none
  | some fh =>
    if fh.is_dirty = false then some bpm
    else
      let bpm := bpm.scheduleWrite g.page_id.toNat fh.data
      some (bpm.setFrame g.frame_id { fh with is_dirty := false })

/-- `WritePageGuard::Drop`. -/
def WritePageGuard.Drop (g : WritePageGuard) (bpm : BufferPoolManager) :
    Option (WritePageGuard × BufferPoolManager) :=
  if g.is_valid = false then some (g, bpm)
  else match bpm.frames[g.frame_id]? with
  | none => none
  | some fh =>
    let prev := fh.pin_count
    let bpm := bpm.setFrame g.frame_id
      { fh with pin_count := if prev = 0 then USIZE_MAX else prev - 1 }
    let inert : WritePageGuard := { g with is_valid := false, page_id := INVALID_PAGE_ID }
    if prev = 1 then
      let bpm := bpm.pushEvent .acquirePool
      match bpm.replacer.SetEvictable g.frame_id true with
      | none => none
      | some rep => some (inert, ({ bpm with replacer := rep }).pushEvent .releasePool)
    else some (inert, bpm)

/-- `operator=(&&)` applied to the same object (`this == &that`): the early
return makes it a no-op. -/
def ReadPageGuard.moveAssignSelf (g : ReadPageGuard) : ReadPageGuard := g

/-- `operator=(&&)` applied to the same object (`this == &that`). -/
def WritePageGuard.moveAssignSelf (g : WritePageGuard) : WritePageGuard := g

/-- `operator=(&&)` between distinct objects: drop the target, transfer the
fields, invalidate the source.  Returns (new target, emptied source, pool). -/
def WritePageGuard.moveAssign (dst src : WritePageGuard)
    (bpm : BufferPoolManager) :
    Option (WritePageGuard × WritePageGuard × BufferPoolManager) :=
  match WritePageGuard.Drop dst bpm with
  | none => none
  | some (_, bpm) =>
    some (⟨src.page_id, src.frame_id, src.is_valid⟩,
          { src with is_valid := false, page_id := INVALID_PAGE_ID }, bpm)

/-! ## Miss resolution and fetch (`CheckedWritePage` / `CheckedReadPage`)

The bodies of the two fetch functions are line-for-line identical up to the
guard type; the shared part is transcribed once. -/

/-- Frame selection on a miss: pop the free list if non-empty, else ask the
replacer for a victim; if the victim still maps some old page, write it back
when dirty (waiting on the completion while `bpm_latch_` is held) and erase
the old mapping.  Returns `(none, _)` when no victim exists (the
`std::nullopt` return). -/
def BufferPoolManager.selectFrame (bpm : BufferPoolManager) :
    Option (Option FrameId × BufferPoolManager) :=
  match bpm.free_frames with
  | f :: rest => some (some f, { bpm with free_frames := rest })
  | [] =>
    match bpm.replacer.Evict with
    | (none, rep) => some (none, { bpm with replacer := rep })
    | (some vfid, rep) =>
      let bpm := { bpm with replacer := rep }
      match FindPageIdByFrame bpm.page_table vfid with
      | none => some (some vfid, bpm)
      | some vpid =>
        match bpm.frames[vfid]? with
        | none => none
        | some fh =>
          let bpm :=
            if fh.is_dirty then
              (bpm.scheduleWrite vpid fh.data).setFrame vfid { fh with is_dirty := false }
            else bpm
          some (some vfid, { bpm with page_table := ptErase bpm.page_table vpid })

/-- The rest of miss resolution, after the frame is chosen: `Reset` the
frame, read the requested page in (waiting while `bpm_latch_` is held),
publish the mapping, `RecordAccess`, `SetEvictable(fid, false)`. -/
def BufferPoolManager.prepareFrame (bpm : BufferPoolManager) (pid : PageId)
    (fid : FrameId) : Option BufferPoolManager :=
  match bpm.frames[fid]? with
  | none => none
  | some fh =>
    let bpm := bpm.setFrame fid (FrameHeader.Reset bpm.page_size fh)
    match bpm.scheduleRead pid fid with
    | none => none
    | some bpm =>
      let bpm := { bpm with page_table := bpm.page_table ++ [(pid, fid)] }
      match bpm.replacer.RecordAccess fid with
      | none => none
      | some rep =>
        match LRUKReplacer.SetEvictable rep fid false with
        | none => none
        | some rep2 => some { bpm with replacer := rep2 }

/-- `BufferPoolManager::CheckedWritePage`.  The whole body runs under
`bpm_latch_` (a `unique_lock` released at return); the result is
`some (none, _)` for the `std::nullopt` "all frames pinned" return and `none`
for a thrown exception (unreachable from well-formed states). -/
def BufferPoolManager.CheckedWritePage (bpm : BufferPoolManager) (pid : PageId) :
    Option (Option WritePageGuard × BufferPoolManager) :=
  let bpm := bpm.pushEvent .acquirePool
  match ptLookup bpm.page_table pid with
  | some fid =>
    match bpm.replacer.RecordAccess fid with
    | none => none
    | some rep =>
      match WritePageGuard.acquire pid fid { bpm with replacer := rep } with
      | none => none
      | some (g, bpm) => some (some g, bpm.pushEvent .releasePool)
  | none =>
    match bpm.selectFrame with
    | none => none
    | some (none, bpm) => some (none, bpm.pushEvent .releasePool)
    | some (some fid, bpm) =>
      match bpm.prepareFrame pid fid with
      | none => none
      | some bpm =>
        match WritePageGuard.acquire pid fid bpm with
        | none => none
        | some (g, bpm) => some (some g, bpm.pushEvent .releasePool)

/-- `BufferPoolManager::CheckedReadPage`. -/
def BufferPoolManager.CheckedReadPage (bpm : BufferPoolManager) (pid : PageId) :
    Option (Option ReadPageGuard × BufferPoolManager) :=
  let bpm := bpm.pushEvent .acquirePool
  match ptLookup bpm.page_table pid with
  | some fid =>
    match bpm.replacer.RecordAccess fid with
    | none => none
    | some rep =>
      match ReadPageGuard.acquire pid fid { bpm with replacer := rep } with
      | none => none
      | some (g, bpm) => some (some g, bpm.pushEvent .releasePool)
  | none =>
    match bpm.selectFrame with
    | none => none
    | some (none, bpm) => some (none, bpm.pushEvent .releasePool)
    | some (some fid, bpm) =>
      match bpm.prepareFrame pid fid with
      | none => none
      | some bpm =>
        match ReadPageGuard.acquire pid fid bpm with
        | none => none
        | some (g, bpm) => some (some g, bpm.pushEvent .releasePool)

/-- `BufferPoolManager::WritePage`, the infallible form: `std::abort` (outer
`none`) when the checked form yields no guard. -/
def BufferPoolManager.WritePage (bpm : BufferPoolManager) (pid : PageId) :
    Option (WritePageGuard × BufferPoolManager) :=
  match bpm.CheckedWritePage pid with
  | none => none
  | some (none, _) => none
  | some (some g, bpm) => some (g, bpm)

/-- `BufferPoolManager::ReadPage`, the infallible form. -/
def BufferPoolManager.ReadPage (bpm : BufferPoolManager) (pid : PageId) :
    Option (ReadPageGuard × BufferPoolManager) :=
  match bpm.CheckedReadPage pid with
  | none => none
  | some (none, _) => none
  | some (some g, bpm) => some (g, bpm)

/-! ## Flush paths -/

/-- `BufferPoolManager::FlushPage`: look the frame up under `bpm_latch_`,
release the latch, take the frame's write latch, and flush if dirty. -/
def BufferPoolManager.FlushPage (bpm : BufferPoolManager) (pid : PageId) :
    Option (Bool × BufferPoolManager) :=
  let bpm := bpm.pushEvent .acquirePool
  match ptLookup bpm.page_table pid with
  | none => some (false, bpm.pushEvent .releasePool)
  | some fid =>
    match bpm.frames[fid]? with
    | none => none
    | some fh =>
      let bpm := bpm.pushEvent .releasePool
      if fh.is_dirty = false then some (true, bpm)
      else
        let bpm := (bpm.scheduleWrite pid fh.data).setFrame fid { fh with is_dirty := false }
        some (true, bpm)

/-- `BufferPoolManager::FlushPageUnsafe`: the whole body, including the wait
for the write completion, runs under a `scoped_lock` on `bpm_latch_`. -/
def BufferPoolManager.FlushPageUnsafe (bpm : BufferPoolManager) (pid : PageId) :
    Option (Bool × BufferPoolManager) :=
  let bpm := bpm.pushEvent .acquirePool
  match ptLookup bpm.page_table pid with
  | none => some (false, bpm.pushEvent .releasePool)
  | some fid =>
    match bpm.frames[fid]? with
    | none => none
    | some fh =>
      if fh.is_dirty = false then some (true, bpm.pushEvent .releasePool)
      else
        let bpm := (bpm.scheduleWrite pid fh.data).setFrame fid { fh with is_dirty := false }
        some (true, bpm.pushEvent .releasePool)

/-- The per-target flush loop shared by both bulk variants: write back and
clean every dirty target, in order. -/
def flushTargets (bpm : BufferPoolManager) :
    List (PageId × FrameId) → Option BufferPoolManager
  | [] => some bpm
  | (pid, fid) :: rest =>
    match bpm.frames[fid]? with
    | none => none
    | some fh =>
      if fh.is_dirty = false then flushTargets bpm rest
      else
        flushTargets ((bpm.scheduleWrite pid fh.data).setFrame fid
          { fh with is_dirty := false }) rest

/-- `BufferPoolManager::FlushAllPagesUnsafe`: the whole loop, including every
write-completion wait, runs under a `scoped_lock` on `bpm_latch_`. -/
def BufferPoolManager.FlushAllPagesUnsafe (bpm : BufferPoolManager) :
    Option BufferPoolManager :=
  let bpm0 := bpm.pushEvent .acquirePool
  match flushTargets bpm0 bpm0.page_table with
  | none => none
  | some bpm1 => some (bpm1.pushEvent .releasePool)

/-- `BufferPoolManager::FlushAllPages`: collect the targets under
`bpm_latch_`, release it, then flush each target under its own frame
latch. -/
def BufferPoolManager.FlushAllPages (bpm : BufferPoolManager) :
    Option BufferPoolManager :=
  let bpm0 := (bpm.pushEvent .acquirePool).pushEvent .releasePool
  flushTargets bpm0 bpm0.page_table

/-! ## Latch-discipline predicates over event logs -/

/-- Scanning with the given initial pool-latch depth: does the log contain a
blocking disk-completion wait taken while the pool latch is held? -/
def ioUnderLatchFrom : Nat → List LatchEvent → Bool
  | _, [] => false
  | d, .acquirePool :: t => ioUnderLatchFrom (d + 1) t
  | d, .releasePool :: t => ioUnderLatchFrom (d - 1) t
  | d, .ioWait _ :: t => decide (0 < d) || ioUnderLatchFrom d t

/-- Does the log contain a disk wait under the pool latch? -/
def ioUnderLatch (l : List LatchEvent) : Bool := ioUnderLatchFrom 0 l

/-- Scanning with the given initial depth: does the log acquire the pool
latch while it is already held?  (`bpm_latch_` is a non-recursive
`std::mutex`; a same-thread re-acquisition deadlocks.) -/
def doubleAcquireFrom : Nat → List LatchEvent → Bool
  | _, [] => false
  | d, .acquirePool :: t => decide (0 < d) || doubleAcquireFrom (d + 1) t
  | d, .releasePool :: t => doubleAcquireFrom (d - 1) t
  | d, .ioWait _ :: t => doubleAcquireFrom d t

/-- Does the log re-acquire the already-held pool latch? -/
def doubleAcquire (l : List LatchEvent) : Bool := doubleAcquireFrom 0 l

/-! ## Concrete states used to exercise the definitions -/

/-- A 1-frame pool over a small page size, with a zeroed disk. -/
def bpmEx : BufferPoolManager := BufferPoolManager.new 1 4 2 (fun _ => List.replicate 4 0)

/-- A 3-frame pool. -/
def bpmEx3 : BufferPoolManager := BufferPoolManager.new 3 4 2 (fun _ => List.replicate 4 0)

/-! # Verified properties -/

/-! ## C7: the inert-guard policy -/

/-- The property asserted by claim C7: on an inert read guard `g` and an
inert write guard `w`, every observable operation aborts (`none`), dropping
performs none of the release steps (the pool state is returned untouched and
the handle stays as it was), and self-move-assignment is a no-op on any
guard. -/
def InertGuardSpec (g : ReadPageGuard) (w : WritePageGuard)
    (bpm : BufferPoolManager) (gv : ReadPageGuard) (wv : WritePageGuard) : Prop :=
  g.GetPageId = none ∧ g.GetData bpm = none ∧ g.IsDirty bpm = none ∧
  g.Flush bpm = none ∧
  ReadPageGuard.Drop g bpm = some (g, bpm) ∧
  w.GetPageId = none ∧ w.GetData bpm = none ∧ w.GetDataMut bpm = none ∧
  w.IsDirty bpm = none ∧ w.Flush bpm = none ∧
  WritePageGuard.Drop w bpm = some (w, bpm) ∧
  ReadPageGuard.moveAssignSelf gv = gv ∧ WritePageGuard.moveAssignSelf wv = wv

/-- C7.  For every guard that is inert (moved-from or already dropped), each
observable operation — `GetPageId`, `GetData`, `GetDataMut`, `IsDirty`,
`Flush` — is a precondition violation that aborts; dropping an inert guard
performs none of the release steps (no pin decrement, no replacer update, no
latch activity); and self-move-assignment is a no-op that leaves a guard
exactly as it was, valid ones included. -/
theorem inert_guard_ops_abort (g : ReadPageGuard) (w : WritePageGuard)
    (bpm : BufferPoolManager) (gv : ReadPageGuard) (wv : WritePageGuard)
    (hg : g.is_valid = false) (hw : w.is_valid = false) :
    InertGuardSpec g w bpm gv wv := by
  refine ⟨?_, ?_, ?_, ?_, ?_, ?_, ?_, ?_, ?_, ?_, ?_, rfl, rfl⟩ <;>
    simp [ReadPageGuard.GetPageId, ReadPageGuard.GetData, ReadPageGuard.IsDirty,
      ReadPageGuard.Flush, ReadPageGuard.Drop, WritePageGuard.GetPageId,
      WritePageGuard.GetData, WritePageGuard.GetDataMut, WritePageGuard.IsDirty,
      WritePageGuard.Flush, WritePageGuard.Drop, hg, hw]

/-- An inert read guard as left behind by a move. -/
def inertReadEx : ReadPageGuard := ⟨INVALID_PAGE_ID, 0, false⟩

/-- An inert write guard as left behind by a move. -/
def inertWriteEx : WritePageGuard := ⟨INVALID_PAGE_ID, 0, false⟩

/-- A valid-looking read guard, used to check self-assignment. -/
def validReadEx : ReadPageGuard := ⟨(0 : Int), 0, true⟩

/-- A valid-looking write guard, used to check self-assignment. -/
def validWriteEx : WritePageGuard := ⟨(0 : Int), 0, true⟩

/-- Witness for C7 at concrete inert guards over the 1-frame pool. -/
theorem inert_guard_ops_abort_witness :
    InertGuardSpec inertReadEx inertWriteEx bpmEx validReadEx validWriteEx :=
  inert_guard_ops_abort inertReadEx inertWriteEx bpmEx validReadEx validWriteEx rfl rfl

/-! ## Characterisation lemmas for `SetEvictable` -/

theorem SetEvictable_untracked {r : LRUKReplacer} {fid : FrameId} (b : Bool)
    (hlt : fid < r.replacer_size) (hnt : fid ∉ r.node_store) :
    r.SetEvictable fid b = some r := by
  simp [LRUKReplacer.SetEvictable, Nat.not_le.mpr hlt, hnt]

theorem SetEvictable_true_of_false {r : LRUKReplacer} {fid : FrameId}
    (hlt : fid < r.replacer_size) (htr : fid ∈ r.node_store)
    (hflag : r.evict_flag fid = false) :
    r.SetEvictable fid true = some
      { r with evict_flag := fun f => if f = fid then true else r.evict_flag f,
               curr_size := r.curr_size + 1 } := by
  simp [LRUKReplacer.SetEvictable, Nat.not_le.mpr hlt, htr, hflag]

theorem SetEvictable_false_of_true {r : LRUKReplacer} {fid : FrameId}
    (hlt : fid < r.replacer_size) (htr : fid ∈ r.node_store)
    (hflag : r.evict_flag fid = true) :
    r.SetEvictable fid false = some
      { r with evict_flag := fun f => if f = fid then false else r.evict_flag f,
               curr_size := r.curr_size - 1 } := by
  simp [LRUKReplacer.SetEvictable, Nat.not_le.mpr hlt, htr, hflag]

theorem SetEvictable_noop_true {r : LRUKReplacer} {fid : FrameId}
    (hlt : fid < r.replacer_size) (htr : fid ∈ r.node_store)
    (hflag : r.evict_flag fid = true) :
    r.SetEvictable fid true = some r := by
  simp [LRUKReplacer.SetEvictable, Nat.not_le.mpr hlt, htr, hflag]

theorem SetEvictable_noop_false {r : LRUKReplacer} {fid : FrameId}
    (hlt : fid < r.replacer_size) (htr : fid ∈ r.node_store)
    (hflag : r.evict_flag fid = false) :
    r.SetEvictable fid false = some r := by
  simp [LRUKReplacer.SetEvictable, Nat.not_le.mpr hlt, htr, hflag]

/-- After a successful `SetEvictable fid b` on a tracked frame, the flag of
`fid` is `b`; everything except the flag function and the size is
untouched. -/
theorem SetEvictable_flag_tracked {r r' : LRUKReplacer} {fid : FrameId} {b : Bool}
    (h : r.SetEvictable fid b = some r') (htr : fid ∈ r.node_store) :
    r'.evict_flag fid = b := by
  by_cases hlt : fid < r.replacer_size
  · cases b <;> cases hflag : r.evict_flag fid
    · rw [SetEvictable_noop_false hlt htr hflag] at h; cases h; exact hflag
    · rw [SetEvictable_false_of_true hlt htr hflag] at h; cases h; simp
    · rw [SetEvictable_true_of_false hlt htr hflag] at h; cases h; simp
    · rw [SetEvictable_noop_true hlt htr hflag] at h; cases h; exact hflag
  · simp [LRUKReplacer.SetEvictable, Nat.le_of_not_lt hlt] at h

/-- If `fid` is tracked and in range, `SetEvictable` succeeds. -/
theorem SetEvictable_isSome {r : LRUKReplacer} {fid : FrameId} (b : Bool)
    (hlt : fid < r.replacer_size) :
    (r.SetEvictable fid b).isSome := by
  by_cases htr : fid ∈ r.node_store
  · cases b <;> cases hflag : r.evict_flag fid <;>
      simp [SetEvictable_noop_false hlt htr, SetEvictable_false_of_true hlt htr,
        SetEvictable_true_of_false hlt htr, SetEvictable_noop_true hlt htr, hflag]
  · simp [SetEvictable_untracked b hlt htr]

/-! ## Explicit evaluation lemmas for the guard constructors and `Drop` -/

theorem writeAcquire_eq {bpm : BufferPoolManager} {fid : FrameId}
    {fh : FrameHeader} {rep : LRUKReplacer} (pid : PageId)
    (hfh : bpm.frames[fid]? = some fh)
    (hrep : bpm.replacer.SetEvictable fid false = some rep) :
    WritePageGuard.acquire pid fid bpm =
      some (⟨(pid : Int), fid, true⟩,
        { bpm with
            frames := bpm.frames.set fid
              { fh with pin_count := fh.pin_count + 1, is_dirty := true },
            replacer := rep,
            events := bpm.events ++ [.acquirePool, .releasePool] }) := by
  have hflen : fid < bpm.frames.length := (List.getElem?_eq_some.mp hfh).1
  simp [WritePageGuard.acquire, hfh, BufferPoolManager.setFrame,
    BufferPoolManager.pushEvent, hrep, List.getElem?_set_eq_of_lt _ hflen,
    List.set_set]

theorem readAcquire_eq {bpm : BufferPoolManager} {fid : FrameId}
    {fh : FrameHeader} {rep : LRUKReplacer} (pid : PageId)
    (hfh : bpm.frames[fid]? = some fh)
    (hrep : bpm.replacer.SetEvictable fid false = some rep) :
    ReadPageGuard.acquire pid fid bpm =
      some (⟨(pid : Int), fid, true⟩,
        { bpm with
            frames := bpm.frames.set fid { fh with pin_count := fh.pin_count + 1 },
            replacer := rep,
            events := bpm.events ++ [.acquirePool, .releasePool] }) := by
  simp [ReadPageGuard.acquire, hfh, BufferPoolManager.setFrame,
    BufferPoolManager.pushEvent, hrep]

theorem writeDrop_eq_one {bpm : BufferPoolManager} {g : WritePageGuard}
    {fh : FrameHeader} {rep : LRUKReplacer}
    (hgv : g.is_valid = true) (hfh : bpm.frames[g.frame_id]? = some fh)
    (hone : fh.pin_count = 1)
    (hrep : bpm.replacer.SetEvictable g.frame_id true = some rep) :
    WritePageGuard.Drop g bpm =
      some ({ g with is_valid := false, page_id := INVALID_PAGE_ID },
        { bpm with frames := bpm.frames.set g.frame_id { fh with pin_count := 0 },
                   replacer := rep,
                   events := bpm.events ++ [.acquirePool, .releasePool] }) := by
  simp [WritePageGuard.Drop, hgv, hfh, hone, BufferPoolManager.setFrame,
    BufferPoolManager.pushEvent, hrep]

theorem writeDrop_eq_many {bpm : BufferPoolManager} {g : WritePageGuard}
    {fh : FrameHeader}
    (hgv : g.is_valid = true) (hfh : bpm.frames[g.frame_id]? = some fh)
    (hone : fh.pin_count ≠ 1) (hzero : fh.pin_count ≠ 0) :
    WritePageGuard.Drop g bpm =
      some ({ g with is_valid := false, page_id := INVALID_PAGE_ID },
        { bpm with
            frames := bpm.frames.set g.frame_id
              { fh with pin_count := fh.pin_count - 1 } }) := by
  simp [WritePageGuard.Drop, hgv, hfh, hone, hzero, BufferPoolManager.setFrame]

theorem readDrop_eq_one {bpm : BufferPoolManager} {g : ReadPageGuard}
    {fh : FrameHeader} {rep : LRUKReplacer}
    (hgv : g.is_valid = true) (hfh : bpm.frames[g.frame_id]? = some fh)
    (hone : fh.pin_count = 1)
    (hrep : bpm.replacer.SetEvictable g.frame_id true = some rep) :
    ReadPageGuard.Drop g bpm =
      some ({ g with is_valid := false, page_id := INVALID_PAGE_ID },
        { bpm with frames := bpm.frames.set g.frame_id { fh with pin_count := 0 },
                   replacer := rep,
                   events := bpm.events ++ [.acquirePool, .releasePool] }) := by
  simp [ReadPageGuard.Drop, hgv, hfh, hone, BufferPoolManager.setFrame,
    BufferPoolManager.pushEvent, hrep]

theorem readDrop_eq_many {bpm : BufferPoolManager} {g : ReadPageGuard}
    {fh : FrameHeader}
    (hgv : g.is_valid = true) (hfh : bpm.frames[g.frame_id]? = some fh)
    (hone : fh.pin_count ≠ 1) (hzero : fh.pin_count ≠ 0) :
    ReadPageGuard.Drop g bpm =
      some ({ g with is_valid := false, page_id := INVALID_PAGE_ID },
        { bpm with
            frames := bpm.frames.set g.frame_id
              { fh with pin_count := fh.pin_count - 1 } }) := by
  simp [ReadPageGuard.Drop, hgv, hfh, hone, hzero, BufferPoolManager.setFrame]

theorem SetEvictable_frame_fields {r r' : LRUKReplacer} {fid : FrameId} {b : Bool}
    (h : r.SetEvictable fid b = some r') :
    r'.replacer_size = r.replacer_size ∧ r'.k = r.k ∧
    r'.node_store = r.node_store ∧ r'.hist = r.hist ∧
    r'.current_timestamp = r.current_timestamp ∧
    (∀ f, f ≠ fid → r'.evict_flag f = r.evict_flag f) := by
  unfold LRUKReplacer.SetEvictable at h
  by_cases hlt : r.replacer_size ≤ fid
  · simp [hlt] at h
  · simp only [hlt, if_false, if_neg] at h
    by_cases htr : fid ∈ r.node_store <;> simp only [htr, if_pos, if_neg, if_true, if_false] at h
    · split at h <;> [skip; split at h] <;> cases h <;>
        refine ⟨rfl, rfl, rfl, rfl, rfl, fun f hf => ?_⟩ <;> simp [hf]
    · cases h; exact ⟨rfl, rfl, rfl, rfl, rfl, fun _ _ => rfl⟩

/-! ## C6: the guard pin / evictability / dirty protocol -/

/-- The property asserted by claim C6, at a frame `fid` currently holding
header `fh` and tracked by the replacer: write-guard acquisition bumps the
pin count by one, marks the frame non-evictable and unconditionally sets the
dirty flag; read-guard acquisition bumps the pin and marks non-evictable,
leaving the dirty flag alone; and dropping a valid guard on `fid` decrements
the pin by one and marks the frame evictable exactly when the previous pin
count was `1` (otherwise the replacer is untouched). -/
def GuardProtocolSpec (bpm : BufferPoolManager) (pid : PageId) (fid : FrameId)
    (fh : FrameHeader) (g : WritePageGuard) (gr : ReadPageGuard) : Prop :=
  (∃ w bpm', WritePageGuard.acquire pid fid bpm = some (w, bpm') ∧
     bpm'.frames[fid]? = some { fh with pin_count := fh.pin_count + 1, is_dirty := true } ∧
     bpm'.replacer.evict_flag fid = false ∧ w.is_valid = true) ∧
  (∃ rg bpm', ReadPageGuard.acquire pid fid bpm = some (rg, bpm') ∧
     bpm'.frames[fid]? = some { fh with pin_count := fh.pin_count + 1 } ∧
     bpm'.replacer.evict_flag fid = false ∧ rg.is_valid = true) ∧
  (∃ g' bpm', WritePageGuard.Drop g bpm = some (g', bpm') ∧
     bpm'.frames[fid]? = some { fh with pin_count := fh.pin_count - 1 } ∧
     (fh.pin_count = 1 → bpm'.replacer.evict_flag fid = true) ∧
     (fh.pin_count ≠ 1 → bpm'.replacer = bpm.replacer)) ∧
  (∃ gr' bpm', ReadPageGuard.Drop gr bpm = some (gr', bpm') ∧
     bpm'.frames[fid]? = some { fh with pin_count := fh.pin_count - 1 } ∧
     (fh.pin_count = 1 → bpm'.replacer.evict_flag fid = true) ∧
     (fh.pin_count ≠ 1 → bpm'.replacer = bpm.replacer))

/-- C6.  Guard acquisition increments the backing frame's pin count by
exactly one and marks the frame non-evictable; a write guard additionally
sets the dirty flag unconditionally; release decrements the pin count by
exactly one and marks the frame evictable exactly when the previous pin
count was `1`. -/
theorem guard_pin_protocol (bpm : BufferPoolManager) (pid : PageId)
    (fid : FrameId) (fh : FrameHeader) (g : WritePageGuard) (gr : ReadPageGuard)
    (hfh : bpm.frames[fid]? = some fh)
    (htr : fid ∈ bpm.replacer.node_store)
    (hlt : fid < bpm.replacer.replacer_size)
    (hpin : 0 < fh.pin_count)
    (hgv : g.is_valid = true) (hgf : g.frame_id = fid)
    (hrv : gr.is_valid = true) (hrf : gr.frame_id = fid) :
    GuardProtocolSpec bpm pid fid fh g gr := by
  have hflen : fid < bpm.frames.length := (List.getElem?_eq_some.mp hfh).1
  have hset : ∀ fh' : FrameHeader, (bpm.frames.set fid fh')[fid]? = some fh' :=
    fun fh' => List.getElem?_set_eq_of_lt fh' hflen
  have hpin0 : fh.pin_count ≠ 0 := Nat.pos_iff_ne_zero.mp hpin
  obtain ⟨repF, hrepF⟩ :
      ∃ x, bpm.replacer.SetEvictable fid false = some x :=
    Option.isSome_iff_exists.mp (SetEvictable_isSome false hlt)
  have hflagF : repF.evict_flag fid = false := SetEvictable_flag_tracked hrepF htr
  obtain ⟨repT, hrepT⟩ :
      ∃ x, bpm.replacer.SetEvictable fid true = some x :=
    Option.isSome_iff_exists.mp (SetEvictable_isSome true hlt)
  have hflagT : repT.evict_flag fid = true := SetEvictable_flag_tracked hrepT htr
  refine ⟨?_, ?_, ?_, ?_⟩
  · exact ⟨_, _, writeAcquire_eq pid hfh hrepF, hset _, hflagF, rfl⟩
  · exact ⟨_, _, readAcquire_eq pid hfh hrepF, hset _, hflagF, rfl⟩
  · by_cases hone : fh.pin_count = 1
    · refine ⟨_, _, hgf ▸ writeDrop_eq_one hgv (hgf ▸ hfh) hone (hgf ▸ hrepT),
        ?_, fun _ => hflagT, fun hc => absurd hone hc⟩
      rw [hone]; exact hset _
    · have heq := @writeDrop_eq_many _ _ fh hgv (hgf ▸ hfh) hone hpin0
      rw [hgf] at heq
      exact ⟨_, _, heq, hset _, fun hc => absurd hc hone, fun _ => rfl⟩
  · by_cases hone : fh.pin_count = 1
    · refine ⟨_, _, hrf ▸ readDrop_eq_one hrv (hrf ▸ hfh) hone (hrf ▸ hrepT),
        ?_, fun _ => hflagT, fun hc => absurd hone hc⟩
      rw [hone]; exact hset _
    · have heq := @readDrop_eq_many _ _ fh hrv (hrf ▸ hfh) hone hpin0
      rw [hrf] at heq
      exact ⟨_, _, heq, hset _, fun hc => absurd hc hone, fun _ => rfl⟩

/-- A replacer tracking frame `0`, non-evictable, one access recorded. -/
def repPinnedEx : LRUKReplacer :=
  { replacer_size := 1, k := 2, node_store := [0], hist := fun _ => [1],
    evict_flag := fun _ => false, curr_size := 0, current_timestamp := 1 }

/-- Frame `0` with one outstanding pin. -/
def fhPinnedEx : FrameHeader :=
  { frame_id := 0, data := List.replicate 4 0, pin_count := 1, is_dirty := false }

/-- A 1-frame pool whose only page `0` is resident and pinned once. -/
def bpmPinnedEx : BufferPoolManager :=
  { num_frames := 1, page_size := 4, next_page_id := 1, frames := [fhPinnedEx],
    free_frames := [], page_table := [(0, 0)], replacer := repPinnedEx,
    disk := fun _ => List.replicate 4 0, trace := [], events := [] }

/-- Witness for C6 on the pinned 1-frame pool. -/
theorem guard_pin_protocol_witness :
    GuardProtocolSpec bpmPinnedEx 0 0 fhPinnedEx ⟨0, 0, true⟩ ⟨0, 0, true⟩ :=
  guard_pin_protocol bpmPinnedEx 0 0 fhPinnedEx ⟨0, 0, true⟩ ⟨0, 0, true⟩
    rfl (by simp [bpmPinnedEx, repPinnedEx]) (by simp [bpmPinnedEx, repPinnedEx])
    (by simp [fhPinnedEx]) rfl rfl rfl rfl

/-! ## Page-table helper lemmas -/

theorem ptLookup_mem {pt : List (PageId × FrameId)} {pid : PageId} {fid : FrameId}
    (h : ptLookup pt pid = some fid) : (pid, fid) ∈ pt := by
  unfold ptLookup at h
  cases hf : pt.find? (fun e => e.1 = pid) with
  | none => rw [hf] at h; cases h
  | some e =>
    rw [hf] at h
    have he : e ∈ pt := List.mem_of_find?_eq_some hf
    have hkey : e.1 = pid := by
      have := List.find?_some hf
      simpa using this
    cases h
    have : e = (pid, e.2) := by
      cases e; simp at hkey ⊢; exact hkey
    rw [this] at he; exact he

theorem ptLookup_erase_self (pt : List (PageId × FrameId)) (pid : PageId) :
    ptLookup (ptErase pt pid) pid = none := by
  have h : (ptErase pt pid).find? (fun e => e.1 = pid) = none := by
    rw [List.find?_eq_none]
    intro e he
    have h2 := (List.mem_filter.mp he).2
    simp at h2 ⊢
    exact h2
  simp [ptLookup, h]

theorem ptLookup_erase_ne {pt : List (PageId × FrameId)} {p q : PageId}
    (hne : p ≠ q) : ptLookup (ptErase pt q) p = ptLookup pt p := by
  have hqp : ¬ (q = p) := fun hc => hne hc.symm
  induction pt with
  | nil => rfl
  | cons e t ih =>
    by_cases he : e.1 = q
    · have h2 : ¬ e.1 = p := fun hc => hne (by rw [← hc, he])
      simp [ptErase, ptLookup, List.filter_cons, List.find?_cons, he, h2, hqp] at *
      exact ih
    · by_cases hp : e.1 = p
      · simp [ptErase, ptLookup, List.filter_cons, List.find?_cons, he, hp, hne]
      · simp [ptErase, ptLookup, List.filter_cons, List.find?_cons, he, hp] at *
        exact ih

/-! ## Explicit evaluation lemmas for `DeletePage` -/

theorem DeletePage_eq_absent {bpm : BufferPoolManager} {pid : PageId}
    (hlk : ptLookup bpm.page_table pid = none) :
    bpm.DeletePage pid = some (true,
      { bpm with trace := bpm.trace ++ [⟨pid, false, true⟩],
                 events := bpm.events ++
                   [.acquirePool, .ioWait ⟨pid, false, true⟩, .releasePool] }) := by
  simp [BufferPoolManager.DeletePage, BufferPoolManager.pushEvent,
    BufferPoolManager.scheduleDealloc, hlk]

theorem DeletePage_eq_pinned {bpm : BufferPoolManager} {pid : PageId}
    {fid : FrameId} {fh : FrameHeader}
    (hlk : ptLookup bpm.page_table pid = some fid)
    (hfh : bpm.frames[fid]? = some fh) (hpin : 0 < fh.pin_count) :
    bpm.DeletePage pid = some (false,
      { bpm with events := bpm.events ++ [.acquirePool, .releasePool] }) := by
  simp [BufferPoolManager.DeletePage, BufferPoolManager.pushEvent, hlk, hfh, hpin]

theorem DeletePage_eq_unpinned {bpm : BufferPoolManager} {pid : PageId}
    {fid : FrameId} {fh : FrameHeader} {rep : LRUKReplacer}
    (hlk : ptLookup bpm.page_table pid = some fid)
    (hfh : bpm.frames[fid]? = some fh) (hpin : fh.pin_count = 0)
    (hrep : bpm.replacer.SetEvictable fid false = some rep) :
    bpm.DeletePage pid = some (true,
      { bpm with
          page_table := ptErase bpm.page_table pid,
          replacer := rep,
          frames := bpm.frames.set fid (FrameHeader.Reset bpm.page_size fh),
          free_frames := bpm.free_frames ++ [fid],
          trace := bpm.trace ++ [⟨pid, false, true⟩],
          events := bpm.events ++
            [.acquirePool, .ioWait ⟨pid, false, true⟩, .releasePool] }) := by
  simp [BufferPoolManager.DeletePage, BufferPoolManager.pushEvent,
    BufferPoolManager.scheduleDealloc, BufferPoolManager.setFrame,
    hlk, hfh, hpin, hrep]

/-! ## C3: the `DeletePage` contract -/

/-- The property asserted by claim C3: `DeletePage` returns `false` exactly
when the page is resident with a positive pin count, in which case nothing
(page table, frames, free list, replacer, request trace, disk) changes; in
every other case it returns `true`, the residency mapping is gone
afterwards, the freed frame (if any) is appended to the free list, and
exactly one deallocate-flagged disk request is issued. -/
def DeletePageSpec (bpm : BufferPoolManager) (pid : PageId) : Prop :=
  ∃ b bpm', bpm.DeletePage pid = some (b, bpm') ∧
    ((b = false) ↔ (∃ fid fh, ptLookup bpm.page_table pid = some fid ∧
        bpm.frames[fid]? = some fh ∧ 0 < fh.pin_count)) ∧
    (b = false → bpm'.page_table = bpm.page_table ∧ bpm'.frames = bpm.frames ∧
       bpm'.free_frames = bpm.free_frames ∧ bpm'.replacer = bpm.replacer ∧
       bpm'.trace = bpm.trace ∧ bpm'.disk = bpm.disk) ∧
    (b = true → ptLookup bpm'.page_table pid = none ∧
       bpm'.trace = bpm.trace ++ [⟨pid, false, true⟩] ∧
       (∀ fid, ptLookup bpm.page_table pid = some fid →
          bpm'.free_frames = bpm.free_frames ++ [fid]) ∧
       (ptLookup bpm.page_table pid = none →
          bpm'.free_frames = bpm.free_frames ∧ bpm'.frames = bpm.frames))

/-- C3.  `DeletePage` refuses (returns `false`) iff the page is resident and
pinned, leaving all pool state unchanged and issuing no disk request; in
every other case it returns `true`, removes the residency mapping if
present (appending the frame to the free list), and issues the
deallocate-flagged disk request. -/
theorem delete_page_contract (bpm : BufferPoolManager) (pid : PageId)
    (hfr : ∀ e ∈ bpm.page_table, e.2 < bpm.frames.length)
    (hrs : ∀ e ∈ bpm.page_table, e.2 < bpm.replacer.replacer_size) :
    DeletePageSpec bpm pid := by
  cases hlk : ptLookup bpm.page_table pid with
  | none =>
    refine ⟨true, _, DeletePage_eq_absent hlk, ?_, ?_, ?_⟩
    · simp only [hlk]
      constructor
      · intro h; cases h
      · rintro ⟨fid, fh, h, -⟩; cases h
    · intro h; cases h
    · intro _
      refine ⟨hlk, rfl, ?_, fun _ => ⟨rfl, rfl⟩⟩
      intro fid h; rw [hlk] at h; cases h
  | some fid =>
    have hmem : (pid, fid) ∈ bpm.page_table := ptLookup_mem hlk
    have hflt : fid < bpm.frames.length := hfr _ hmem
    have hrlt : fid < bpm.replacer.replacer_size := hrs _ hmem
    obtain ⟨fh, hfh⟩ : ∃ fh, bpm.frames[fid]? = some fh :=
      ⟨bpm.frames[fid], List.getElem?_eq_getElem hflt⟩
    by_cases hpin : 0 < fh.pin_count
    · refine ⟨false, _, DeletePage_eq_pinned hlk hfh hpin, ?_, ?_, ?_⟩
      · exact ⟨fun _ => ⟨fid, fh, hlk, hfh, hpin⟩, fun _ => rfl⟩
      · exact fun _ => ⟨rfl, rfl, rfl, rfl, rfl, rfl⟩
      · intro h; cases h
    · have hpin0 : fh.pin_count = 0 := Nat.eq_zero_of_not_pos hpin
      obtain ⟨rep, hrep⟩ :
          ∃ x, bpm.replacer.SetEvictable fid false = some x :=
        Option.isSome_iff_exists.mp (SetEvictable_isSome false hrlt)
      refine ⟨true, _, DeletePage_eq_unpinned hlk hfh hpin0 hrep, ?_, ?_, ?_⟩
      · constructor
        · intro h; cases h
        · rintro ⟨fid', fh', hlk', hfh', hpin'⟩
          rw [hlk] at hlk'; cases hlk'
          rw [hfh] at hfh'; cases hfh'
          omega
      · intro h; cases h
      · refine fun _ => ⟨ptLookup_erase_self _ _, rfl, ?_, ?_⟩
        · intro fid' h; rw [hlk] at h; cases h; rfl
        · intro h; rw [hlk] at h; cases h

/-- Witness for C3 on the pinned 1-frame pool (the refusing branch is
exercised; the absent-page branch is exercised by the C10 witness state). -/
theorem delete_page_contract_witness : DeletePageSpec bpmPinnedEx 0 :=
  delete_page_contract bpmPinnedEx 0 (by decide) (by decide)

/-! ## C10: deleting a dirty unpinned page discards its modifications -/

/-- The property asserted by claim C10, for a resident, unpinned, dirty page
`pid` backed by frame `fid` holding `fh`: `DeletePage` succeeds; afterwards
the frame's bytes are the zero page and its dirty flag is clear; the frame
is back on the free list; the only disk request issued is the
deallocate-flagged one (in particular no write), and the disk image is
untouched, so the in-memory modifications are lost. -/
def DeleteDiscardSpec (bpm : BufferPoolManager) (pid : PageId) (fid : FrameId)
    (fh : FrameHeader) : Prop :=
  ∃ bpm', bpm.DeletePage pid = some (true, bpm') ∧
    bpm'.frames[fid]? = some
      { frame_id := fh.frame_id, data := List.replicate bpm.page_size 0,
        pin_count := 0, is_dirty := false } ∧
    bpm'.free_frames = bpm.free_frames ++ [fid] ∧
    bpm'.trace = bpm.trace ++ [⟨pid, false, true⟩] ∧
    (∀ req ∈ bpm'.trace, req ∈ bpm.trace ∨ req = ⟨pid, false, true⟩) ∧
    bpm'.disk = bpm.disk

/-- C10.  A successful `DeletePage` of a resident, unpinned, dirty page
zeroes the backing frame and clears its dirty flag before returning the
frame to the free list, and issues only the deallocation request — the dirty
bytes are never written back. -/
theorem delete_page_discards_dirty (bpm : BufferPoolManager) (pid : PageId)
    (fid : FrameId) (fh : FrameHeader)
    (hlk : ptLookup bpm.page_table pid = some fid)
    (hfh : bpm.frames[fid]? = some fh)
    (hpin : fh.pin_count = 0) (_hdirty : fh.is_dirty = true)
    (hrlt : fid < bpm.replacer.replacer_size) :
    DeleteDiscardSpec bpm pid fid fh := by
  have hflt : fid < bpm.frames.length := (List.getElem?_eq_some.mp hfh).1
  obtain ⟨rep, hrep⟩ : ∃ x, bpm.replacer.SetEvictable fid false = some x :=
    Option.isSome_iff_exists.mp (SetEvictable_isSome false hrlt)
  refine ⟨_, DeletePage_eq_unpinned hlk hfh hpin hrep, ?_, rfl, rfl, ?_, rfl⟩
  · exact List.getElem?_set_eq_of_lt _ hflt
  · intro req hreq
    rcases List.mem_append.mp hreq with h | h
    · exact Or.inl h
    · exact Or.inr (by simpa using h)

/-- A dirty, unpinned resident page on a 1-frame pool: page `0` in frame `0`
with modified bytes `[7, 7, 7, 7]`. -/
def bpmDirtyEx : BufferPoolManager :=
  { num_frames := 1, page_size := 4, next_page_id := 1,
    frames := [{ frame_id := 0, data := [7, 7, 7, 7], pin_count := 0,
                 is_dirty := true }],
    free_frames := [], page_table := [(0, 0)],
    replacer := { replacer_size := 1, k := 2, node_store := [0],
                  hist := fun _ => [1], evict_flag := fun _ => true,
                  curr_size := 1, current_timestamp := 1 },
    disk := fun _ => List.replicate 4 0, trace := [], events := [] }

/-- Witness for C10 on the dirty 1-frame pool. -/
theorem delete_page_discards_dirty_witness :
    DeleteDiscardSpec bpmDirtyEx 0 0
      { frame_id := 0, data := [7, 7, 7, 7], pin_count := 0, is_dirty := true } :=
  delete_page_discards_dirty bpmDirtyEx 0 0 _ rfl rfl rfl rfl (by decide)

/-! ## Explicit evaluation lemmas for `FlushPage` -/

theorem FlushPage_eq_absent {bpm : BufferPoolManager} {pid : PageId}
    (hlk : ptLookup bpm.page_table pid = none) :
    bpm.FlushPage pid = some (false,
      { bpm with events := bpm.events ++ [.acquirePool, .releasePool] }) := by
  simp [BufferPoolManager.FlushPage, BufferPoolManager.pushEvent, hlk]

theorem FlushPage_eq_clean {bpm : BufferPoolManager} {pid : PageId}
    {fid : FrameId} {fh : FrameHeader}
    (hlk : ptLookup bpm.page_table pid = some fid)
    (hfh : bpm.frames[fid]? = some fh) (hclean : fh.is_dirty = false) :
    bpm.FlushPage pid = some (true,
      { bpm with events := bpm.events ++ [.acquirePool, .releasePool] }) := by
  simp [BufferPoolManager.FlushPage, BufferPoolManager.pushEvent, hlk, hfh, hclean]

theorem FlushPage_eq_dirty {bpm : BufferPoolManager} {pid : PageId}
    {fid : FrameId} {fh : FrameHeader}
    (hlk : ptLookup bpm.page_table pid = some fid)
    (hfh : bpm.frames[fid]? = some fh) (hdirty : fh.is_dirty = true) :
    bpm.FlushPage pid = some (true,
      { bpm with
          frames := bpm.frames.set fid { fh with is_dirty := false },
          disk := fun q => if q = pid then fh.data else bpm.disk q,
          trace := bpm.trace ++ [⟨pid, true, false⟩],
          events := bpm.events ++
            [.acquirePool, .releasePool, .ioWait ⟨pid, true, false⟩] }) := by
  simp [BufferPoolManager.FlushPage, BufferPoolManager.pushEvent,
    BufferPoolManager.scheduleWrite, BufferPoolManager.setFrame, hlk, hfh, hdirty]

/-! ## C5: the flush contract and flush idempotence -/

/-- The property asserted by claim C5: `FlushPage` returns `false` iff the
page is not resident; on a resident page it returns `true`, and it issues a
disk write and clears the dirty flag only when the frame is dirty (a clean
frame changes nothing and performs no I/O); an immediately repeated flush is
a no-op performing no I/O; and a read guard's `Flush` on a clean frame is a
complete no-op. -/
def FlushPageSpec (bpm : BufferPoolManager) (pid : PageId) : Prop :=
  ∃ b bpm', bpm.FlushPage pid = some (b, bpm') ∧
    ((b = false) ↔ ptLookup bpm.page_table pid = none) ∧
    (b = false → bpm'.frames = bpm.frames ∧ bpm'.trace = bpm.trace ∧
       bpm'.disk = bpm.disk) ∧
    (∀ fid fh, ptLookup bpm.page_table pid = some fid →
       bpm.frames[fid]? = some fh →
       b = true ∧
       (fh.is_dirty = true →
          bpm'.trace = bpm.trace ++ [⟨pid, true, false⟩] ∧
          bpm'.frames[fid]? = some { fh with is_dirty := false } ∧
          bpm'.disk pid = fh.data) ∧
       (fh.is_dirty = false →
          bpm'.frames = bpm.frames ∧ bpm'.trace = bpm.trace ∧
          bpm'.disk = bpm.disk)) ∧
    (b = true → ∃ bpm'', bpm'.FlushPage pid = some (true, bpm'') ∧
       bpm''.frames = bpm'.frames ∧ bpm''.trace = bpm'.trace ∧
       bpm''.disk = bpm'.disk) ∧
    (∀ g : ReadPageGuard, g.is_valid = true →
       ∀ fh, bpm.frames[g.frame_id]? = some fh → fh.is_dirty = false →
         g.Flush bpm = some bpm)

/-- C5.  `FlushPage` returns `false` iff the page is not resident; on a
resident page it returns `true` and writes/cleans only a dirty frame, so
`FlushPage; FlushPage` equals `FlushPage` with the second call performing no
I/O, and a guard's `Flush` on a clean frame is a no-op. -/
theorem flush_page_contract (bpm : BufferPoolManager) (pid : PageId)
    (hfr : ∀ e ∈ bpm.page_table, e.2 < bpm.frames.length) :
    FlushPageSpec bpm pid := by
  have hguard : ∀ g : ReadPageGuard, g.is_valid = true →
      ∀ fh, bpm.frames[g.frame_id]? = some fh → fh.is_dirty = false →
        g.Flush bpm = some bpm := by
    intro g hgv fh hfh hclean
    simp [ReadPageGuard.Flush, hgv, hfh, hclean]
  cases hlk : ptLookup bpm.page_table pid with
  | none =>
    refine ⟨false, _, FlushPage_eq_absent hlk, ?_, fun _ => ⟨rfl, rfl, rfl⟩,
      ?_, ?_, hguard⟩
    · exact ⟨fun _ => hlk, fun _ => rfl⟩
    · intro fid fh h; rw [hlk] at h; cases h
    · intro h; cases h
  | some fid =>
    have hmem : (pid, fid) ∈ bpm.page_table := ptLookup_mem hlk
    have hflt : fid < bpm.frames.length := hfr _ hmem
    obtain ⟨fh, hfh⟩ : ∃ fh, bpm.frames[fid]? = some fh :=
      ⟨bpm.frames[fid], List.getElem?_eq_getElem hflt⟩
    cases hdirty : fh.is_dirty with
    | false =>
      refine ⟨true, _, FlushPage_eq_clean hlk hfh hdirty, ?_, ?_, ?_, ?_, hguard⟩
      · constructor
        · intro h; cases h
        · intro h; rw [hlk] at h; cases h
      · intro h; cases h
      · intro fid' fh' hlk' hfh'
        rw [hlk] at hlk'; cases hlk'
        rw [hfh] at hfh'; cases hfh'
        refine ⟨rfl, ?_, fun _ => ⟨rfl, rfl, rfl⟩⟩
        intro h; rw [hdirty] at h; cases h
      · intro _
        exact ⟨_, FlushPage_eq_clean hlk hfh hdirty, rfl, rfl, rfl⟩
    | true =>
      refine ⟨true, _, FlushPage_eq_dirty hlk hfh hdirty, ?_, ?_, ?_, ?_, hguard⟩
      · constructor
        · intro h; cases h
        · intro h; rw [hlk] at h; cases h
      · intro h; cases h
      · intro fid' fh' hlk' hfh'
        rw [hlk] at hlk'; cases hlk'
        rw [hfh] at hfh'; cases hfh'
        refine ⟨rfl, fun _ => ⟨rfl, List.getElem?_set_eq_of_lt _ hflt, ?_⟩, ?_⟩
        · simp
        · intro h; rw [hdirty] at h; cases h
      · intro _
        refine ⟨_, @FlushPage_eq_clean _ _ _ { fh with is_dirty := false }
          hlk (List.getElem?_set_eq_of_lt _ hflt) rfl, rfl, rfl, rfl⟩

/-- Witness for C5 on the dirty 1-frame pool: the dirty write-then-clean
branch and the idempotent second flush are both exercised. -/
theorem flush_page_contract_witness : FlushPageSpec bpmDirtyEx 0 :=
  flush_page_contract bpmDirtyEx 0 (by decide)

/-! ## Event-log lemmas for the bulk flush loop -/

theorem flushTargets_events :
    ∀ (l : List (PageId × FrameId)) (bpm bpm' : BufferPoolManager),
    flushTargets bpm l = some bpm' →
    ∃ ws, bpm'.events = bpm.events ++ ws ∧
      ∀ e ∈ ws, ∃ r, e = LatchEvent.ioWait r := by
  intro l
  induction l with
  | nil =>
    intro bpm bpm' h
    cases h
    exact ⟨[], by simp, by simp⟩
  | cons e t ih =>
    intro bpm bpm' h
    obtain ⟨pid, fid⟩ := e
    unfold flushTargets at h
    cases hfh : bpm.frames[fid]? with
    | none => rw [hfh] at h; cases h
    | some fh =>
      rw [hfh] at h
      dsimp only at h
      by_cases hd : fh.is_dirty = false
      · rw [if_pos hd] at h
        exact ih bpm bpm' h
      · rw [if_neg hd] at h
        obtain ⟨ws, hws, hio⟩ := ih _ _ h
        refine ⟨LatchEvent.ioWait ⟨pid, true, false⟩ :: ws, ?_, ?_⟩
        · rw [hws]
          simp [BufferPoolManager.scheduleWrite, BufferPoolManager.setFrame]
        · intro ev hev
          rcases hev with _ | hev
          · exact ⟨_, rfl⟩
          · exact hio _ (by assumption)

theorem ioUnderLatchFrom_zero_io_only (ws : List LatchEvent)
    (h : ∀ e ∈ ws, ∃ r, e = LatchEvent.ioWait r) :
    ioUnderLatchFrom 0 ws = false := by
  induction ws with
  | nil => rfl
  | cons e t ih =>
    obtain ⟨r, hr⟩ := h e (by simp)
    subst hr
    simpa [ioUnderLatchFrom] using ih (fun e he => h e (by simp [he]))

/-! ## C8: which operations wait on disk completions under the pool latch -/

/-- The property proved in place of claim C8 (which the code falsifies): the
safe variants `FlushPage` and `FlushAllPages` never wait for a disk
completion while the pool latch is held, but `DeletePage` waits for the
deallocation completion with the latch held whenever it returns `true` —
and, exercised on the dirty one-frame pool, so do `FlushPageUnsafe` and
`FlushAllPagesUnsafe` for their write-backs. -/
def LatchDisciplineSpec (bpm : BufferPoolManager) (pid : PageId) : Prop :=
  (∀ b bpm', bpm.FlushPage pid = some (b, bpm') →
     ∃ tail, bpm'.events = bpm.events ++ tail ∧ ioUnderLatch tail = false) ∧
  (∀ bpm', bpm.FlushAllPages = some bpm' →
     ∃ tail, bpm'.events = bpm.events ++ tail ∧ ioUnderLatch tail = false) ∧
  (∀ bpm', bpm.DeletePage pid = some (true, bpm') →
     ∃ tail, bpm'.events = bpm.events ++ tail ∧ ioUnderLatch tail = true) ∧
  ((bpmDirtyEx.FlushPageUnsafe 0).map (fun p => ioUnderLatch p.2.events)
      = some true) ∧
  (bpmDirtyEx.FlushAllPagesUnsafe.map (fun b => ioUnderLatch b.events)
      = some true)

/-- C8, amended.  `FlushPage` and `FlushAllPages` do not block on disk
completions while holding the pool latch, but `DeletePage` blocks on the
deallocation completion under the latch whenever it issues it, and the
unsafe flush variants block on their write-backs under the latch. -/
theorem latch_discipline (bpm : BufferPoolManager) (pid : PageId) :
    LatchDisciplineSpec bpm pid := by
  refine ⟨?_, ?_, ?_, by rfl, by rfl⟩
  · intro b bpm' h
    cases hlk : ptLookup bpm.page_table pid with
    | none =>
      rw [FlushPage_eq_absent hlk] at h
      simp only [Option.some.injEq, Prod.mk.injEq] at h
      obtain ⟨rfl, rfl⟩ := h
      exact ⟨[.acquirePool, .releasePool], rfl, rfl⟩
    | some fid =>
      cases hfh : bpm.frames[fid]? with
      | none =>
        simp [BufferPoolManager.FlushPage, BufferPoolManager.pushEvent,
          hlk, hfh] at h
      | some fh =>
        cases hd : fh.is_dirty with
        | false =>
          rw [FlushPage_eq_clean hlk hfh hd] at h
          simp only [Option.some.injEq, Prod.mk.injEq] at h
          obtain ⟨rfl, rfl⟩ := h
          exact ⟨[.acquirePool, .releasePool], rfl, rfl⟩
        | true =>
          rw [FlushPage_eq_dirty hlk hfh hd] at h
          simp only [Option.some.injEq, Prod.mk.injEq] at h
          obtain ⟨rfl, rfl⟩ := h
          exact ⟨[.acquirePool, .releasePool, .ioWait ⟨pid, true, false⟩],
            by simp, rfl⟩
  · intro bpm' h
    unfold BufferPoolManager.FlushAllPages at h
    obtain ⟨ws, hws, hio⟩ := flushTargets_events _ _ _ h
    refine ⟨[.acquirePool, .releasePool] ++ ws, ?_, ?_⟩
    · rw [hws]; simp [BufferPoolManager.pushEvent]
    · show ioUnderLatchFrom 0 _ = false
      simpa [ioUnderLatchFrom] using ioUnderLatchFrom_zero_io_only ws hio
  · intro bpm' h
    cases hlk : ptLookup bpm.page_table pid with
    | none =>
      rw [DeletePage_eq_absent hlk] at h
      simp only [Option.some.injEq, Prod.mk.injEq, true_and] at h
      subst h
      exact ⟨[.acquirePool, .ioWait ⟨pid, false, true⟩, .releasePool], rfl, rfl⟩
    | some fid =>
      cases hfh : bpm.frames[fid]? with
      | none =>
        simp [BufferPoolManager.DeletePage, BufferPoolManager.pushEvent,
          hlk, hfh] at h
      | some fh =>
        by_cases hpin : 0 < fh.pin_count
        · rw [DeletePage_eq_pinned hlk hfh hpin] at h
          simp at h
        · have hpin0 : fh.pin_count = 0 := Nat.eq_zero_of_not_pos hpin
          cases hrep : bpm.replacer.SetEvictable fid false with
          | none =>
            simp [BufferPoolManager.DeletePage, BufferPoolManager.pushEvent,
              hlk, hfh, hpin0, hrep] at h
          | some rep =>
            rw [DeletePage_eq_unpinned hlk hfh hpin0 hrep] at h
            simp only [Option.some.injEq, Prod.mk.injEq, true_and] at h
            subst h
            exact ⟨[.acquirePool, .ioWait ⟨pid, false, true⟩, .releasePool],
              rfl, rfl⟩

/-- Counterexample for C8 as stated: `DeletePage` on a fresh 1-frame pool
(page `0` not resident) returns `true` and its event log shows the blocking
deallocation wait taken while the pool latch is held. -/
theorem delete_page_waits_under_latch_cex :
    (bpmEx.DeletePage 0).map (fun p => (p.1, ioUnderLatch p.2.events))
      = some (true, true) := by
  rfl

/-- Witness for the amended C8 theorem at a concrete input. -/
theorem latch_discipline_witness : LatchDisciplineSpec bpmDirtyEx 0 :=
  latch_discipline bpmDirtyEx 0

/-! ## C9: guard acquisition while the manager holds the pool latch -/

/-- C9 evaluation: fetching page `0` on the fresh 1-frame pool succeeds in
the sequential model, but the event log of `CheckedReadPage` shows the guard
constructor acquiring `bpm_latch_` (for its `SetEvictable` call) while
`CheckedReadPage` still holds it — a same-thread second lock of the
non-recursive `std::mutex`, which deadlocks rather than completing without
blocking. -/
theorem guard_ctor_double_locks_pool_latch :
    (bpmEx.CheckedReadPage 0).map
      (fun p => (p.1.isSome, doubleAcquire p.2.events)) = some (true, true) := by
  rfl

/-! ## C2: the eviction algorithm

Specification-side notions.  A frame's retained history is kept
chronologically sorted (`RInv` below), so its head — what the code reads as
`access_history_[f].front()` — is both the oldest retained timestamp and,
for a frame with fewer than `k` accesses, the oldest recorded one. -/

/-- Backward k-distance is `+∞`: fewer than `k` recorded accesses. -/
def isInfD (r : LRUKReplacer) (f : FrameId) : Prop := (r.hist f).length < r.k

/-- The oldest retained timestamp (`access_history_[f].front()`). -/
def oldestOf (r : LRUKReplacer) (f : FrameId) : Nat := (r.hist f).headD 0

/-- The finite backward k-distance `current_timestamp - kth-most-recent`. -/
def bkdOf (r : LRUKReplacer) (f : FrameId) : Nat :=
  r.current_timestamp - oldestOf r f

/-- An eviction candidate: tracked, evictable, non-empty history. -/
def isCand (r : LRUKReplacer) (f : FrameId) : Prop :=
  f ∈ r.node_store ∧ r.evict_flag f = true ∧ r.hist f ≠ []

/-- Candidate quality ignoring tracking (used inside the scan): evictable
with non-empty history. -/
def candHere (r : LRUKReplacer) (f : FrameId) : Prop :=
  r.evict_flag f = true ∧ r.hist f ≠ []

/-- `f` is at least as eviction-preferred as `g`: an infinite backward
k-distance beats any finite one; among infinite candidates the earlier
oldest timestamp wins; among finite candidates the larger distance wins. -/
def EvictPref (r : LRUKReplacer) (f g : FrameId) : Prop :=
  (isInfD r f ∧ (isInfD r g → oldestOf r f ≤ oldestOf r g)) ∨
  (¬ isInfD r f ∧ ¬ isInfD r g ∧ bkdOf r g ≤ bkdOf r f)

/-- Executable strict sortedness of a timestamp history (oldest first). -/
def strictIncr : List Nat → Bool
  | [] => true
  | [_] => true
  | a :: b :: t => decide (a < b) && strictIncr (b :: t)

/-- In a strictly increasing history the head is the oldest entry. -/
theorem strictIncr_headD_le : ∀ (l : List Nat), strictIncr l = true →
    ∀ t ∈ l, l.headD 0 ≤ t := by
  intro l
  induction l with
  | nil => intro _ t ht; cases ht
  | cons a t ih =>
    intro hs u hu
    cases hu with
    | head => exact Nat.le_refl _
    | tail _ hu2 =>
      cases t with
      | nil => cases hu2
      | cons b t2 =>
        have hs2 : (decide (a < b) && strictIncr (b :: t2)) = true := hs
        have hab : a < b := of_decide_eq_true ((Bool.and_eq_true _ _).mp hs2).1
        have hs' : strictIncr (b :: t2) = true := ((Bool.and_eq_true _ _).mp hs2).2
        have hle := ih hs' u hu2
        have hhd : (b :: t2).headD 0 = b := rfl
        rw [hhd] at hle
        exact Nat.le_trans (Nat.le_of_lt hab) hle

/-- The replacer representation invariant, maintained by every operation
(for `k ≥ 1`): no duplicate tracked ids; `curr_size_` counts the evictable
tracked frames; tracked ids are in range; every tracked history is
non-empty, at most `k` long, strictly increasing (so its head is the oldest
recorded retained timestamp), with positive timestamps no newer than the
global counter; and histories of distinct tracked frames are disjoint (each
timestamp is handed out once). -/
def RInv (r : LRUKReplacer) : Prop :=
  1 ≤ r.k ∧
  r.node_store.Nodup ∧
  r.curr_size = (r.node_store.filter (fun f => r.evict_flag f)).length ∧
  (∀ f ∈ r.node_store, f < r.replacer_size) ∧
  (∀ f ∈ r.node_store, r.hist f ≠ [] ∧ (r.hist f).length ≤ r.k ∧
     strictIncr (r.hist f) = true ∧
     ∀ t ∈ r.hist f, 0 < t ∧ t ≤ r.current_timestamp) ∧
  (∀ f ∈ r.node_store, ∀ g ∈ r.node_store, f ≠ g → ∀ t ∈ r.hist f, t ∉ r.hist g)

/-- Invariant of the `Evict` scan after processing the prefix `seen` of
`node_store_`: either no candidate has been seen (`evict_frame == -1`), or
`evict_frame` holds the best candidate seen so far under the code's
preference (with `found_inf` / `earliest_timestamp` / `max_backward_k_distance`
consistent with it). -/
def AccInv (r : LRUKReplacer) (seen : List FrameId) (acc : EvictAcc) : Prop :=
  (acc.evict_frame = -1 ∨ ∃ n : Nat, acc.evict_frame = (n : Int)) ∧
  (acc.evict_frame = -1 →
     acc.found_inf = false ∧ ∀ f ∈ seen, ¬ candHere r f) ∧
  (∀ n : Nat, acc.evict_frame = (n : Int) →
     n ∈ seen ∧ candHere r n ∧
     (acc.found_inf = true →
        isInfD r n ∧ acc.earliest = oldestOf r n ∧
        ∀ g ∈ seen, candHere r g → isInfD r g → oldestOf r n ≤ oldestOf r g) ∧
     (acc.found_inf = false →
        ¬ isInfD r n ∧ acc.max_bkd = bkdOf r n ∧
        ∀ g ∈ seen, candHere r g → ¬ isInfD r g ∧ bkdOf r g ≤ bkdOf r n))

theorem evictStep_accinv (r : LRUKReplacer) (hk : 1 ≤ r.k)
    (seen : List FrameId) (acc : EvictAcc) (f : FrameId)
    (hacc : AccInv r seen acc) : AccInv r (seen ++ [f]) (evictStep r acc f) := by
  obtain ⟨hshape, hnone, hsome⟩ := hacc
  have hofnat : ∀ m : Nat, ((m : Int) = -1) = False :=
    fun m => eq_false (by omega)
  by_cases hflag : r.evict_flag f = false
  · -- not evictable: skipped
    rw [evictStep, if_pos hflag]
    have hnc : ¬ candHere r f := fun hc => by rw [hc.1] at hflag; cases hflag
    refine ⟨hshape, ?_, ?_⟩
    · intro h1
      obtain ⟨h2, h3⟩ := hnone h1
      refine ⟨h2, fun g hg => ?_⟩
      rcases List.mem_append.mp hg with hg | hg
      · exact h3 g hg
      · rw [List.mem_singleton.mp hg]; exact hnc
    · intro n hn
      obtain ⟨h1, h2, h3, h4⟩ := hsome n hn
      refine ⟨List.mem_append_left _ h1, h2, ?_, ?_⟩
      · intro hfi
        obtain ⟨i1, i2, i3⟩ := h3 hfi
        refine ⟨i1, i2, fun g hg hcg hig => ?_⟩
        rcases List.mem_append.mp hg with hg | hg
        · exact i3 g hg hcg hig
        · rw [List.mem_singleton.mp hg] at hcg; exact absurd hcg hnc
      · intro hfi
        obtain ⟨i1, i2, i3⟩ := h4 hfi
        refine ⟨i1, i2, fun g hg hcg => ?_⟩
        rcases List.mem_append.mp hg with hg | hg
        · exact i3 g hg hcg
        · rw [List.mem_singleton.mp hg] at hcg; exact absurd hcg hnc
  · have hflagT : r.evict_flag f = true := by
      cases hfv : r.evict_flag f
      · exact absurd hfv hflag
      · rfl
    by_cases hlen : (r.hist f).length < r.k
    · -- `+∞` branch
      by_cases hemp : r.hist f = []
      · -- zero history: skipped
        rw [evictStep, if_neg (by rw [hflagT]; exact fun hc => by cases hc),
          if_pos hlen, if_pos hemp]
        have hnc : ¬ candHere r f := fun hc => hc.2 hemp
        refine ⟨hshape, ?_, ?_⟩
        · intro h1
          obtain ⟨h2, h3⟩ := hnone h1
          refine ⟨h2, fun g hg => ?_⟩
          rcases List.mem_append.mp hg with hg | hg
          · exact h3 g hg
          · rw [List.mem_singleton.mp hg]; exact hnc
        · intro n hn
          obtain ⟨h1, h2, h3, h4⟩ := hsome n hn
          refine ⟨List.mem_append_left _ h1, h2, ?_, ?_⟩
          · intro hfi
            obtain ⟨i1, i2, i3⟩ := h3 hfi
            refine ⟨i1, i2, fun g hg hcg hig => ?_⟩
            rcases List.mem_append.mp hg with hg | hg
            · exact i3 g hg hcg hig
            · rw [List.mem_singleton.mp hg] at hcg; exact absurd hcg hnc
          · intro hfi
            obtain ⟨i1, i2, i3⟩ := h4 hfi
            refine ⟨i1, i2, fun g hg hcg => ?_⟩
            rcases List.mem_append.mp hg with hg | hg
            · exact i3 g hg hcg
            · rw [List.mem_singleton.mp hg] at hcg; exact absurd hcg hnc
      · -- genuine `+∞` candidate
        have hcf : candHere r f := ⟨hflagT, hemp⟩
        have hinf : isInfD r f := hlen
        by_cases hcond : acc.found_inf = false ∨ (r.hist f).headD 0 < acc.earliest
        · -- becomes the current best
          rw [evictStep, if_neg (by rw [hflagT]; exact fun hc => by cases hc),
            if_pos hlen, if_neg hemp, if_pos hcond]
          refine ⟨Or.inr ⟨f, rfl⟩, ?_, ?_⟩
          · intro h1; rw [hofnat f] at h1; cases h1
          · intro n hn
            have hnf : n = f := by
              have h' : (f : Int) = (n : Int) := hn
              exact_mod_cast h'.symm
            subst hnf
            refine ⟨List.mem_append_right _ (List.mem_singleton.mpr rfl), hcf,
              ?_, ?_⟩
            · intro _
              refine ⟨hinf, rfl, fun g hg hcg hig => ?_⟩
              rcases List.mem_append.mp hg with hg | hg
              · -- g seen earlier
                cases hfv : acc.found_inf with
                | false =>
                  -- no `+∞` candidate seen yet: g cannot be one
                  rcases hshape with h0 | ⟨m, hm⟩
                  · exact absurd hcg ((hnone h0).2 g hg)
                  · obtain ⟨-, -, -, h4⟩ := hsome m hm
                    obtain ⟨-, -, i3⟩ := h4 hfv
                    exact absurd hig (i3 g hg hcg).1
                | true =>
                  -- the new candidate is strictly earlier than the best seen
                  have hlt : (r.hist n).headD 0 < acc.earliest := by
                    rcases hcond with hc | hc
                    · rw [hfv] at hc; cases hc
                    · exact hc
                  rcases hshape with h0 | ⟨m, hm⟩
                  · rw [(hnone h0).1] at hfv; cases hfv
                  · obtain ⟨-, -, h3, -⟩ := hsome m hm
                    obtain ⟨-, i2, i3⟩ := h3 hfv
                    have h5 : oldestOf r m ≤ oldestOf r g := i3 g hg hcg hig
                    have hlt2 : oldestOf r n < oldestOf r m := by
                      rw [← i2]; exact hlt
                    exact Nat.le_of_lt (Nat.lt_of_lt_of_le hlt2 h5)
              · rw [List.mem_singleton.mp hg]
            · intro h1; cases h1
        · -- a `+∞` candidate, but not better: accumulator unchanged
          rw [evictStep, if_neg (by rw [hflagT]; exact fun hc => by cases hc),
            if_pos hlen, if_neg hemp, if_neg hcond]
          push_neg at hcond
          obtain ⟨hfiT', hge⟩ := hcond
          have hfiT : acc.found_inf = true := by
            cases hfv : acc.found_inf
            · exact absurd hfv hfiT'
            · rfl
          refine ⟨hshape, ?_, ?_⟩
          · intro h1
            exact absurd (hnone h1).1 (by rw [hfiT]; exact fun hc => by cases hc)
          · intro n hn
            obtain ⟨h1, h2, h3, h4⟩ := hsome n hn
            refine ⟨List.mem_append_left _ h1, h2, ?_, ?_⟩
            · intro hfi
              obtain ⟨i1, i2, i3⟩ := h3 hfi
              refine ⟨i1, i2, fun g hg hcg hig => ?_⟩
              rcases List.mem_append.mp hg with hg | hg
              · exact i3 g hg hcg hig
              · rw [List.mem_singleton.mp hg]
                rw [← i2]
                exact hge
            · intro hfi
              rw [hfi] at hfiT; cases hfiT
    · -- finite branch
      have hne : r.hist f ≠ [] := by
        intro hc
        rw [hc] at hlen
        simp at hlen
        omega
      have hcf : candHere r f := ⟨hflagT, hne⟩
      have hninf : ¬ isInfD r f := hlen
      by_cases hfi : acc.found_inf = false
      · by_cases hcond : acc.evict_frame = -1 ∨
            acc.max_bkd < r.current_timestamp - (r.hist f).headD 0
        · -- becomes the current best finite candidate
          rw [evictStep, if_neg (by rw [hflagT]; exact fun hc => by cases hc),
            if_neg hlen, if_pos hfi, if_pos hcond]
          refine ⟨Or.inr ⟨f, rfl⟩, ?_, ?_⟩
          · intro h1; rw [hofnat f] at h1; cases h1
          · intro n hn
            have hnf : n = f := by
              have h' : (f : Int) = (n : Int) := hn
              exact_mod_cast h'.symm
            subst hnf
            refine ⟨List.mem_append_right _ (List.mem_singleton.mpr rfl), hcf,
              ?_, ?_⟩
            · intro h1; rw [h1] at hfi; cases hfi
            · intro _
              refine ⟨hninf, rfl, fun g hg hcg => ?_⟩
              rcases List.mem_append.mp hg with hg | hg
              · rcases hcond with h0 | hlt
                · exact absurd (hnone h0).2 (fun hnc => hnc g hg hcg)
                · rcases hshape with h0 | ⟨m, hm⟩
                  · exact absurd (hnone h0).2 (fun hnc => hnc g hg hcg)
                  · obtain ⟨-, -, -, h4⟩ := hsome m hm
                    obtain ⟨i1, i2, i3⟩ := h4 hfi
                    have := i3 g hg hcg
                    refine ⟨this.1, ?_⟩
                    have h5 : bkdOf r g ≤ acc.max_bkd := i2 ▸ this.2
                    have h6 : acc.max_bkd ≤ bkdOf r n := Nat.le_of_lt hlt
                    exact Nat.le_trans h5 h6
              · rw [List.mem_singleton.mp hg]
                exact ⟨hninf, Nat.le_refl _⟩
        · -- finite candidate, but not better: accumulator unchanged
          rw [evictStep, if_neg (by rw [hflagT]; exact fun hc => by cases hc),
            if_neg hlen, if_pos hfi, if_neg hcond]
          push_neg at hcond
          obtain ⟨hne1, hle⟩ := hcond
          refine ⟨hshape, ?_, ?_⟩
          · intro h1; exact absurd h1 hne1
          · intro n hn
            obtain ⟨h1, h2, h3, h4⟩ := hsome n hn
            refine ⟨List.mem_append_left _ h1, h2, ?_, ?_⟩
            · intro hfiT; rw [hfiT] at hfi; cases hfi
            · intro _
              obtain ⟨i1, i2, i3⟩ := h4 hfi
              refine ⟨i1, i2, fun g hg hcg => ?_⟩
              rcases List.mem_append.mp hg with hg | hg
              · exact i3 g hg hcg
              · rw [List.mem_singleton.mp hg]
                exact ⟨hninf, i2 ▸ hle⟩
      · -- found_inf: finite frames are no longer considered
        have hfiT : acc.found_inf = true := by
          cases hfv : acc.found_inf
          · exact absurd hfv hfi
          · rfl
        rw [evictStep, if_neg (by rw [hflagT]; exact fun hc => by cases hc),
          if_neg hlen, if_neg (by rw [hfiT]; exact fun hc => by cases hc)]
        refine ⟨hshape, ?_, ?_⟩
        · intro h1
          exact absurd (hnone h1).1 (by rw [hfiT]; exact fun hc => by cases hc)
        · intro n hn
          obtain ⟨h1, h2, h3, h4⟩ := hsome n hn
          refine ⟨List.mem_append_left _ h1, h2, ?_, ?_⟩
          · intro hfi2
            obtain ⟨i1, i2, i3⟩ := h3 hfi2
            refine ⟨i1, i2, fun g hg hcg hig => ?_⟩
            rcases List.mem_append.mp hg with hg | hg
            · exact i3 g hg hcg hig
            · rw [List.mem_singleton.mp hg] at hig
              exact absurd hig hninf
          · intro hfi2
            rw [hfi2] at hfiT; cases hfiT

theorem evictLoop_accinv (r : LRUKReplacer) (hk : 1 ≤ r.k) :
    AccInv r r.node_store r.evictLoop := by
  have main : ∀ (l seen : List FrameId) (acc : EvictAcc), AccInv r seen acc →
      AccInv r (seen ++ l) (l.foldl (evictStep r) acc) := by
    intro l
    induction l with
    | nil => intro seen acc h; simpa using h
    | cons f t ih =>
      intro seen acc h
      have h1 := evictStep_accinv r hk seen acc f h
      have h2 := ih (seen ++ [f]) _ h1
      simpa using h2
  have base : AccInv r [] ⟨-1, 0, USIZE_MAX, false⟩ := by
    refine ⟨Or.inl rfl, fun _ => ⟨rfl, by simp⟩, ?_⟩
    intro n hn
    exfalso
    have h' : (-1 : Int) = (n : Int) := hn
    omega
  simpa using main r.node_store [] _ base

/-- The property asserted by claim C2: `Evict` returns `none` exactly when
no tracked evictable frame with non-empty history exists; otherwise it
returns a tracked evictable frame that is eviction-preferred (`EvictPref`:
largest backward k-distance, `+∞` for fewer than `k` accesses, `+∞` ties
broken by the earliest oldest timestamp) over every other candidate, and the
successful eviction erases that frame's tracking state — id, history and
flag — leaving other frames' state alone and decrementing `curr_size_` by
exactly one. -/
def EvictSpec (r : LRUKReplacer) : Prop :=
  ((r.Evict.1 = none) ↔ ¬ ∃ f, isCand r f) ∧
  (∀ fid, r.Evict.1 = some fid →
     isCand r fid ∧
     (∀ g, isCand r g → g ≠ fid → EvictPref r fid g) ∧
     r.Evict.2.node_store = r.node_store.erase fid ∧
     fid ∉ r.Evict.2.node_store ∧
     r.Evict.2.hist fid = [] ∧
     r.Evict.2.evict_flag fid = false ∧
     (∀ g, g ≠ fid → r.Evict.2.hist g = r.hist g ∧
        r.Evict.2.evict_flag g = r.evict_flag g) ∧
     r.curr_size = r.Evict.2.curr_size + 1)

/-- C2.  Under the representation invariant, `Evict` returns `none` iff
there is no tracked evictable frame with non-empty history; otherwise it
evicts the candidate with the largest backward k-distance (frames with
fewer than `k` accesses count as `+∞`, ties among `+∞` broken by the
earliest oldest timestamp), removes that frame's tracking state including
its history, and decrements the size by one. -/
theorem lruk_evict_correct (r : LRUKReplacer) (h : RInv r) : EvictSpec r := by
  obtain ⟨hk, hnd, hsz, _hrange, hhist, _hdisj⟩ := h
  by_cases hcz : r.curr_size = 0
  · have hnocand : ¬ ∃ f, isCand r f := by
      rintro ⟨f, hf1, hf2, -⟩
      have hmemf : f ∈ r.node_store.filter (fun x => r.evict_flag x) :=
        List.mem_filter.mpr ⟨hf1, by rw [hf2]⟩
      have : 0 < (r.node_store.filter (fun x => r.evict_flag x)).length :=
        List.length_pos_of_mem hmemf
      omega
    constructor
    · rw [LRUKReplacer.Evict, if_pos hcz]
      exact ⟨fun _ => hnocand, fun _ => rfl⟩
    · intro fid hfid
      rw [LRUKReplacer.Evict, if_pos hcz] at hfid
      cases hfid
  · obtain ⟨f0, hf0mem, hf0flag⟩ :
        ∃ x ∈ r.node_store, r.evict_flag x = true := by
      have hne : r.node_store.filter (fun x => r.evict_flag x) ≠ [] := by
        intro hc
        rw [hsz, hc] at hcz
        exact hcz rfl
      obtain ⟨x, hx⟩ := List.exists_mem_of_ne_nil _ hne
      exact ⟨x, (List.mem_filter.mp hx).1, by
        have := (List.mem_filter.mp hx).2
        simpa using this⟩
    have hcand0 : isCand r f0 := ⟨hf0mem, hf0flag, (hhist f0 hf0mem).1⟩
    have hacc := evictLoop_accinv r hk
    obtain ⟨hshape, hnone, hsome⟩ := hacc
    rcases hshape with h1 | ⟨n, hn⟩
    · obtain ⟨-, hnoc⟩ := hnone h1
      exact absurd ⟨hcand0.2.1, hcand0.2.2⟩ (hnoc f0 hf0mem)
    · have hne1 : r.evictLoop.evict_frame ≠ -1 := by
        rw [hn]; intro hc
        have h' : (n : Int) = -1 := hc
        omega
      have hres : r.Evict = (some n, r.eraseFrame n) := by
        rw [LRUKReplacer.Evict, if_neg hcz, if_neg hne1, hn,
          Int.toNat_natCast]
      obtain ⟨hnmem, hncand, h3, h4⟩ := hsome n hn
      constructor
      · rw [hres]
        constructor
        · intro hc; cases hc
        · intro hc; exact absurd ⟨f0, hcand0⟩ hc
      · intro fid hfid
        rw [hres] at hfid
        cases hfid
        have hcurr1 : 1 ≤ r.curr_size := Nat.pos_of_ne_zero hcz
        refine ⟨⟨hnmem, hncand⟩, ?_, ?_, ?_, ?_, ?_, ?_, ?_⟩
        · intro g hg _
          cases hfv : r.evictLoop.found_inf with
          | true =>
            obtain ⟨i1, -, i3⟩ := h3 hfv
            exact Or.inl ⟨i1, fun hig => i3 g hg.1 ⟨hg.2.1, hg.2.2⟩ hig⟩
          | false =>
            obtain ⟨i1, -, i3⟩ := h4 hfv
            obtain ⟨j1, j2⟩ := i3 g hg.1 ⟨hg.2.1, hg.2.2⟩
            exact Or.inr ⟨i1, j1, j2⟩
        · rw [hres]
          rfl
        · rw [hres]
          exact hnd.not_mem_erase
        · rw [hres]; simp [LRUKReplacer.eraseFrame]
        · rw [hres]; simp [LRUKReplacer.eraseFrame]
        · intro g hg
          rw [hres]
          simp [LRUKReplacer.eraseFrame, hg]
        · rw [hres]
          simp [LRUKReplacer.eraseFrame]
          omega

/-- A replacer state satisfying `RInv`, exercising both an `+∞` candidate
(frame `1`, one access) and a finite-distance candidate (frame `0`, two
accesses, `k = 2`). -/
def repEvictEx : LRUKReplacer :=
  { replacer_size := 3, k := 2, node_store := [0, 1],
    hist := fun f => if f = 0 then [1, 2] else if f = 1 then [3] else [],
    evict_flag := fun f => decide (f < 2),
    curr_size := 2, current_timestamp := 3 }

/-- Witness for C2: the concrete state satisfies `RInv`, and the theorem
applies (frame `1`, the `+∞` candidate, is the victim). -/
theorem lruk_evict_correct_witness : EvictSpec repEvictEx :=
  lruk_evict_correct repEvictEx (by unfold RInv; decide)

/-! ## C4: when is a frame's access history reset? -/

/-- The stale-history pipeline on the 1-frame pool: fetch page `0` (its
frame `0` records timestamp `1`), drop the guard, `DeletePage 0` (frame `0`
returns to the free list, but `DeletePage` only calls
`SetEvictable(fid,false)` — it never removes the replacer's tracking state),
then fetch page `5`, which recycles frame `0` from the free list.  The value
is frame `0`'s access history after the recycling fetch. -/
def staleHistoryRun : Option (List Nat) :=
  match bpmEx.CheckedReadPage 0 with
  | some (some g, s1) =>
    match ReadPageGuard.Drop g s1 with
    | some (_, s2) =>
      match s2.DeletePage 0 with
      | some (true, s3) =>
        match s3.CheckedReadPage 5 with
        | some (some _, s4) => some (s4.replacer.hist 0)
        | _ => none
      | _ => none
    | _ => none
  | _ => none

/-- Counterexample to C4 as stated: after deleting page `0` and recycling
its frame from the free list for page `5`, the frame's history is `[1, 2]`
— the new access was appended to the stale timestamp `1` left by the
previous occupant, instead of the tracking starting afresh with `[2]`. -/
theorem delete_page_keeps_history_cex :
    staleHistoryRun = some [1, 2] ∧ staleHistoryRun ≠ some [2] := by
  constructor <;> decide

/-- The property proved in place of claim C4: a frame's access history is
erased when the frame is evicted by the replacer (`Evict`) and when it is
removed explicitly (`Remove`); but `DeletePage` does not reset it — the
deleted page's frame stays tracked with its full history (it is merely
marked non-evictable), which is what the counterexample run exhibits. -/
def HistoryResetSpec (r : LRUKReplacer) (fid : FrameId)
    (bpm : BufferPoolManager) (pid : PageId) (dfid : FrameId) : Prop :=
  (∀ v r2, r.Evict = (some v, r2) →
     r2.hist v = [] ∧ v ∉ r2.node_store ∧ r2.evict_flag v = false) ∧
  (∀ r2, r.Remove fid = some r2 → fid ∈ r.node_store →
     r2.hist fid = [] ∧ fid ∉ r2.node_store) ∧
  (∀ bpm2, bpm.DeletePage pid = some (true, bpm2) →
     ptLookup bpm.page_table pid = some dfid →
     bpm2.replacer.hist dfid = bpm.replacer.hist dfid ∧
     bpm2.replacer.node_store = bpm.replacer.node_store)

/-- C4, amended.  Eviction and explicit removal erase the frame's tracking
state including its access history; `DeletePage` does not — the frame it
frees keeps its node and history in the replacer (only the evictable flag is
cleared), so a later recycling of that frame appends to stale timestamps. -/
theorem history_reset_on_evict_and_remove_only (r : LRUKReplacer)
    (fid : FrameId) (bpm : BufferPoolManager) (pid : PageId) (dfid : FrameId)
    (hnd : r.node_store.Nodup) :
    HistoryResetSpec r fid bpm pid dfid := by
  refine ⟨?_, ?_, ?_⟩
  · intro v r2 h
    rw [LRUKReplacer.Evict] at h
    by_cases hcz : r.curr_size = 0
    · rw [if_pos hcz] at h
      simp at h
    · rw [if_neg hcz] at h
      by_cases hne : r.evictLoop.evict_frame = -1
      · rw [if_pos hne] at h
        simp at h
      · rw [if_neg hne] at h
        simp only [Prod.mk.injEq, Option.some.injEq] at h
        obtain ⟨h1, h2⟩ := h
        subst h1; subst h2
        refine ⟨by simp [LRUKReplacer.eraseFrame], ?_,
          by simp [LRUKReplacer.eraseFrame]⟩
        exact hnd.not_mem_erase
  · intro r2 h htr
    rw [LRUKReplacer.Remove, if_pos htr] at h
    by_cases hflag : r.evict_flag fid = false
    · rw [if_pos hflag] at h; cases h
    · rw [if_neg hflag] at h
      cases h
      exact ⟨by simp [LRUKReplacer.eraseFrame], hnd.not_mem_erase⟩
  · intro bpm2 h hlk
    cases hfh : bpm.frames[dfid]? with
    | none =>
      simp [BufferPoolManager.DeletePage, BufferPoolManager.pushEvent,
        hlk, hfh] at h
    | some fh =>
      by_cases hpin : 0 < fh.pin_count
      · rw [DeletePage_eq_pinned hlk hfh hpin] at h
        simp at h
      · have hpin0 : fh.pin_count = 0 := Nat.eq_zero_of_not_pos hpin
        cases hrep : bpm.replacer.SetEvictable dfid false with
        | none =>
          simp [BufferPoolManager.DeletePage, BufferPoolManager.pushEvent,
            hlk, hfh, hpin0, hrep] at h
        | some rep =>
          rw [DeletePage_eq_unpinned hlk hfh hpin0 hrep] at h
          simp only [Option.some.injEq, Prod.mk.injEq, true_and] at h
          subst h
          obtain ⟨-, -, hns, hh, -, -⟩ := SetEvictable_frame_fields hrep
          exact ⟨by rw [hh], hns⟩

/-- Witness for the amended C4 theorem at concrete states: the replacer with
two tracked frames and the dirty 1-frame pool. -/
theorem history_reset_witness : HistoryResetSpec repEvictEx 0 bpmDirtyEx 0 0 :=
  history_reset_on_evict_and_remove_only repEvictEx 0 bpmDirtyEx 0 0 (by decide)

/-! ## C1: infrastructure — more page-table and replacer lemmas -/

theorem ptLookup_eq_none_iff {pt : List (PageId × FrameId)} {pid : PageId} :
    ptLookup pt pid = none ↔ ∀ e ∈ pt, e.1 ≠ pid := by
  unfold ptLookup
  constructor
  · intro h e he hc
    cases hf : pt.find? (fun e => e.1 = pid) with
    | none =>
      rw [List.find?_eq_none] at hf
      exact hf e he (by simpa using hc)
    | some x => rw [hf] at h; cases h
  · intro h
    have : pt.find? (fun e => e.1 = pid) = none := by
      rw [List.find?_eq_none]
      intro e he
      simpa using h e he
    simp [this]

theorem ptLookup_append_ne {pt : List (PageId × FrameId)} {q P : PageId}
    {fid : FrameId} (h : P ≠ q) :
    ptLookup (pt ++ [(q, fid)]) P = ptLookup pt P := by
  induction pt with
  | nil =>
    simp [ptLookup, List.find?, Ne.symm h]
  | cons e t ih =>
    by_cases he : e.1 = P
    · simp [ptLookup, List.find?, he]
    · unfold ptLookup at *
      simp only [List.cons_append, List.find?_cons, he, decide_eq_false he] at *
      simpa using ih

theorem ptLookup_append_self {pt : List (PageId × FrameId)} {q : PageId}
    {fid : FrameId} (h : ptLookup pt q = none) :
    ptLookup (pt ++ [(q, fid)]) q = some fid := by
  induction pt with
  | nil => simp [ptLookup, List.find?]
  | cons e t ih =>
    have he : e.1 ≠ q := (ptLookup_eq_none_iff.mp h) e (by simp)
    have ht : ptLookup t q = none := by
      rw [ptLookup_eq_none_iff]
      intro x hx
      exact (ptLookup_eq_none_iff.mp h) x (by simp [hx])
    unfold ptLookup at *
    simp only [List.cons_append, List.find?_cons, decide_eq_false he]
    simpa using ih ht

theorem FindPageIdByFrame_some_of_mem {pt : List (PageId × FrameId)}
    {fid : FrameId} {pid : PageId} (hmem : (pid, fid) ∈ pt)
    (hnd : (pt.map Prod.snd).Nodup) :
    FindPageIdByFrame pt fid = some pid := by
  induction pt with
  | nil => cases hmem
  | cons e t ih =>
    rcases List.mem_cons.mp hmem with he | ht
    · subst he
      simp [FindPageIdByFrame, List.find?]
    · have hnd2 : e.2 ∉ t.map Prod.snd ∧ (t.map Prod.snd).Nodup := by
        rw [List.map_cons, List.nodup_cons] at hnd
        exact hnd
      have he2 : e.2 ≠ fid := by
        intro hc
        have h1 : fid ∈ t.map Prod.snd :=
          List.mem_map.mpr ⟨(pid, fid), ht, rfl⟩
        rw [hc] at hnd2
        exact hnd2.1 h1
      unfold FindPageIdByFrame at *
      simp only [List.find?_cons, decide_eq_false he2]
      exact ih ht hnd2.2

theorem residentF_lookup {pt : List (PageId × FrameId)} {f : FrameId}
    (h : f ∈ pt.map Prod.snd) : ∃ pid, (pid, f) ∈ pt := by
  obtain ⟨e, he, hef⟩ := List.mem_map.mp h
  exact ⟨e.1, by rw [← hef]; exact he⟩

/-- The history-trimming step of `RecordAccess` keeps histories non-empty
and within the `k` bound. -/
theorem trim_hist_ok {k : Nat} {h : List Nat} {ts : Nat} (hk : 1 ≤ k)
    (hlen : h.length ≤ k) :
    (if k < (h ++ [ts]).length then (h ++ [ts]).tail else h ++ [ts]) ≠ [] ∧
    (if k < (h ++ [ts]).length then (h ++ [ts]).tail else h ++ [ts]).length ≤ k := by
  by_cases hc : k < (h ++ [ts]).length
  · rw [if_pos hc]
    have hl : (h ++ [ts]).length = h.length + 1 := by simp
    have htl : (h ++ [ts]).tail.length = h.length := by simp
    constructor
    · intro he
      rw [he] at htl
      simp at htl
      rw [hl, ← htl] at hc
      omega
    · omega
  · rw [if_neg hc]
    constructor
    · simp
    · rw [Nat.not_lt] at hc
      exact hc

/-- Characterisation of `RecordAccess` on an already-tracked frame. -/
theorem RecordAccess_tracked_spec {r : LRUKReplacer} {fid : FrameId}
    (hlt : fid < r.replacer_size) (htr : fid ∈ r.node_store) :
    ∃ r', r.RecordAccess fid = some r' ∧
      r'.replacer_size = r.replacer_size ∧ r'.k = r.k ∧
      r'.node_store = r.node_store ∧
      r'.current_timestamp = r.current_timestamp + 1 ∧
      r'.hist fid = (if r.k < (r.hist fid ++ [r.current_timestamp + 1]).length
        then (r.hist fid ++ [r.current_timestamp + 1]).tail
        else r.hist fid ++ [r.current_timestamp + 1]) ∧
      (∀ f, f ≠ fid → r'.hist f = r.hist f) ∧
      r'.evict_flag = r.evict_flag ∧
      r'.curr_size = r.curr_size := by
  unfold LRUKReplacer.RecordAccess
  rw [if_neg (Nat.not_le.mpr hlt)]
  simp only [htr, if_true]
  exact ⟨_, rfl, rfl, rfl, rfl, rfl, by simp, fun f hf => by simp [hf], rfl, rfl⟩

/-- Characterisation of `RecordAccess` on a fresh frame (for `k ≥ 1`). -/
theorem RecordAccess_untracked_spec {r : LRUKReplacer} {fid : FrameId}
    (hlt : fid < r.replacer_size) (hntr : fid ∉ r.node_store) (hk : 1 ≤ r.k) :
    ∃ r', r.RecordAccess fid = some r' ∧
      r'.replacer_size = r.replacer_size ∧ r'.k = r.k ∧
      r'.node_store = r.node_store ++ [fid] ∧
      r'.current_timestamp = r.current_timestamp + 1 ∧
      r'.hist fid = [r.current_timestamp + 1] ∧
      (∀ f, f ≠ fid → r'.hist f = r.hist f) ∧
      r'.evict_flag fid = false ∧
      (∀ f, f ≠ fid → r'.evict_flag f = r.evict_flag f) ∧
      r'.curr_size = r.curr_size := by
  unfold LRUKReplacer.RecordAccess
  rw [if_neg (Nat.not_le.mpr hlt)]
  simp only [hntr, if_false]
  have hki : ¬ r.k < 1 := by omega
  exact ⟨_, rfl, rfl, rfl, rfl, rfl, by simp [hki], fun f hf => by simp [hf],
    by simp, fun f hf => by simp [hf], rfl⟩

/-- When every tracked frame is an evictable candidate and there is at least
one, `Evict` succeeds and removes a tracked frame. -/
theorem Evict_succeeds (r : LRUKReplacer) (hk : 1 ≤ r.k)
    (hflags : ∀ f ∈ r.node_store, r.evict_flag f = true)
    (hhist : ∀ f ∈ r.node_store, r.hist f ≠ [])
    (hsz : r.curr_size = r.node_store.length)
    (hns : r.node_store ≠ []) :
    ∃ v, r.Evict = (some v, r.eraseFrame v) ∧ v ∈ r.node_store := by
  have hcz : r.curr_size ≠ 0 := by
    rw [hsz]
    intro hc
    exact hns (List.eq_nil_of_length_eq_zero hc)
  obtain ⟨f0, hf0⟩ := List.exists_mem_of_ne_nil _ hns
  have hcand0 : candHere r f0 := ⟨hflags f0 hf0, hhist f0 hf0⟩
  obtain ⟨hshape, hnone, hsome⟩ := evictLoop_accinv r hk
  rcases hshape with h1 | ⟨n, hn⟩
  · exact absurd hcand0 ((hnone h1).2 f0 hf0)
  · have hne1 : r.evictLoop.evict_frame ≠ -1 := by
      rw [hn]; intro hc
      have h' : (n : Int) = -1 := hc
      omega
    refine ⟨n, ?_, (hsome n hn).1⟩
    rw [LRUKReplacer.Evict, if_neg hcz, if_neg hne1, hn, Int.toNat_natCast]

/-! ## C1: invariants of the quiescent pool -/

/-- Frame `f` currently backs some resident page. -/
def residentF (bpm : BufferPoolManager) (f : FrameId) : Prop :=
  f ∈ bpm.page_table.map Prod.snd

/-- The quiescent pool invariant: what holds between operations when no
guard is outstanding.  Frame array and replacer sized consistently;
the page table maps distinct pages to distinct in-range frames; the free
list is duplicate-free, in range and disjoint from the resident frames, and
together they cover all frames; every pin count is zero; the replacer
tracks exactly the resident frames, all evictable, with well-formed
histories; `curr_size_` counts them. -/
def QInv (bpm : BufferPoolManager) : Prop :=
  bpm.frames.length = bpm.num_frames ∧
  bpm.replacer.replacer_size = bpm.num_frames ∧
  1 ≤ bpm.replacer.k ∧
  (bpm.page_table.map Prod.fst).Nodup ∧
  (bpm.page_table.map Prod.snd).Nodup ∧
  (∀ e ∈ bpm.page_table, e.2 < bpm.num_frames) ∧
  bpm.free_frames.Nodup ∧
  (∀ f ∈ bpm.free_frames, f < bpm.num_frames) ∧
  (∀ f ∈ bpm.free_frames, ¬ residentF bpm f) ∧
  (∀ f, f < bpm.num_frames → f ∈ bpm.free_frames ∨ residentF bpm f) ∧
  (∀ fh ∈ bpm.frames, fh.pin_count = 0) ∧
  (∀ f ∈ bpm.replacer.node_store, residentF bpm f) ∧
  (∀ e ∈ bpm.page_table, e.2 ∈ bpm.replacer.node_store) ∧
  (∀ f ∈ bpm.replacer.node_store, bpm.replacer.evict_flag f = true) ∧
  bpm.replacer.node_store.Nodup ∧
  bpm.replacer.curr_size = bpm.replacer.node_store.length ∧
  (∀ f ∈ bpm.replacer.node_store, bpm.replacer.hist f ≠ [] ∧
     (bpm.replacer.hist f).length ≤ bpm.replacer.k)

/-- The tracked content of page `P`: while `P` is resident its frame holds
exactly the bytes `B` (and, if the frame is clean, the disk agrees); while
`P` is not resident the disk holds `B`. -/
def PClause (bpm : BufferPoolManager) (P : PageId) (B : List Nat) : Prop :=
  match ptLookup bpm.page_table P with
  | some fid => ∃ fh, bpm.frames[fid]? = some fh ∧ fh.data = B ∧
      (fh.is_dirty = false → bpm.disk P = B)
  | none => bpm.disk P = B

/-- The pool invariant while exactly one guard — on page `q` in frame
`fid` — is outstanding: like `QInv` except that `fid` is pinned once and
marked non-evictable. -/
def MidInv (bpm : BufferPoolManager) (q : PageId) (fid : FrameId) : Prop :=
  bpm.frames.length = bpm.num_frames ∧
  bpm.replacer.replacer_size = bpm.num_frames ∧
  1 ≤ bpm.replacer.k ∧
  (bpm.page_table.map Prod.fst).Nodup ∧
  (bpm.page_table.map Prod.snd).Nodup ∧
  (∀ e ∈ bpm.page_table, e.2 < bpm.num_frames) ∧
  bpm.free_frames.Nodup ∧
  (∀ f ∈ bpm.free_frames, f < bpm.num_frames) ∧
  (∀ f ∈ bpm.free_frames, ¬ residentF bpm f) ∧
  (∀ f, f < bpm.num_frames → f ∈ bpm.free_frames ∨ residentF bpm f) ∧
  ptLookup bpm.page_table q = some fid ∧
  (∀ i, i ≠ fid → ∀ fh, bpm.frames[i]? = some fh → fh.pin_count = 0) ∧
  (∃ fh, bpm.frames[fid]? = some fh ∧ fh.pin_count = 1) ∧
  (∀ f ∈ bpm.replacer.node_store, residentF bpm f) ∧
  (∀ e ∈ bpm.page_table, e.2 ∈ bpm.replacer.node_store) ∧
  (∀ f ∈ bpm.replacer.node_store, f ≠ fid → bpm.replacer.evict_flag f = true) ∧
  bpm.replacer.evict_flag fid = false ∧
  bpm.replacer.node_store.Nodup ∧
  bpm.replacer.curr_size + 1 = bpm.replacer.node_store.length ∧
  (∀ f ∈ bpm.replacer.node_store, bpm.replacer.hist f ≠ [] ∧
     (bpm.replacer.hist f).length ≤ bpm.replacer.k)

/-- An interposed operation of the round-trip scenario: fetch a page and
immediately drop the returned guard. -/
inductive PoolOp where
  | fetchRead (q : PageId)
  | fetchWrite (q : PageId)
deriving DecidableEq

/-- The page an interposed operation touches. -/
def PoolOp.page : PoolOp → PageId
  | .fetchRead q => q
  | .fetchWrite q => q

/-- Run one interposed operation: `CheckedReadPage` / `CheckedWritePage`
followed by `Drop` of the returned guard (a failed fetch under capacity
pressure leaves the pool as it was). -/
def stepOp (bpm : BufferPoolManager) : PoolOp → Option BufferPoolManager
  | .fetchRead q =>
    match bpm.CheckedReadPage q with
    | none => none
    | some (none, bpm1) => some bpm1
    | some (some g, bpm1) =>
      match ReadPageGuard.Drop g bpm1 with
      | none => none
      | some (_, bpm2) => some bpm2
  | .fetchWrite q =>
    match bpm.CheckedWritePage q with
    | none => none
    | some (none, bpm1) => some bpm1
    | some (some g, bpm1) =>
      match WritePageGuard.Drop g bpm1 with
      | none => none
      | some (_, bpm2) => some bpm2

/-- Run a list of interposed operations. -/
def runOps (bpm : BufferPoolManager) : List PoolOp → Option BufferPoolManager
  | [] => some bpm
  | op :: t =>
    match stepOp bpm op with
    | none => none
    | some bpm1 => runOps bpm1 t

/-! ## C1: small facts about `ptErase` and injectivity -/

theorem mem_ptErase {pt : List (PageId × FrameId)} {e : PageId × FrameId}
    {vpid : PageId} : e ∈ ptErase pt vpid ↔ e ∈ pt ∧ e.1 ≠ vpid := by
  unfold ptErase
  rw [List.mem_filter]
  simp

theorem snd_inj_of_nodup {pt : List (PageId × FrameId)}
    (hnd : (pt.map Prod.snd).Nodup) :
    ∀ e1 ∈ pt, ∀ e2 ∈ pt, e1.2 = e2.2 → e1 = e2 := by
  induction pt with
  | nil => intro e1 h; cases h
  | cons e t ih =>
    rw [List.map_cons, List.nodup_cons] at hnd
    intro e1 h1 e2 h2 heq
    rcases List.mem_cons.mp h1 with h1 | h1 <;>
      rcases List.mem_cons.mp h2 with h2 | h2
    · rw [h1, h2]
    · exfalso
      apply hnd.1
      rw [h1] at heq
      rw [heq]
      exact List.mem_map.mpr ⟨e2, h2, rfl⟩
    · exfalso
      apply hnd.1
      rw [h2] at heq
      rw [← heq]
      exact List.mem_map.mpr ⟨e1, h1, rfl⟩
    · exact ih hnd.2 e1 h1 e2 h2 heq

theorem erase_snd_not_mem {pt : List (PageId × FrameId)} {vpid : PageId}
    {v : FrameId} (hmem : (vpid, v) ∈ pt)
    (hnd : (pt.map Prod.snd).Nodup) :
    v ∉ (ptErase pt vpid).map Prod.snd := by
  intro hc
  obtain ⟨e, he, hev⟩ := List.mem_map.mp hc
  obtain ⟨hept, hek⟩ := mem_ptErase.mp he
  have := snd_inj_of_nodup hnd e hept (vpid, v) hmem (by simpa using hev)
  exact hek (by rw [this])

theorem ptErase_fst_nodup {pt : List (PageId × FrameId)} {vpid : PageId}
    (hnd : (pt.map Prod.fst).Nodup) : ((ptErase pt vpid).map Prod.fst).Nodup :=
  List.Nodup.sublist ((List.filter_sublist pt).map Prod.fst) hnd

theorem ptErase_snd_nodup {pt : List (PageId × FrameId)} {vpid : PageId}
    (hnd : (pt.map Prod.snd).Nodup) : ((ptErase pt vpid).map Prod.snd).Nodup :=
  List.Nodup.sublist ((List.filter_sublist pt).map Prod.snd) hnd

theorem frames_pin_zero_of_mem {bpm : BufferPoolManager}
    (h : ∀ fh ∈ bpm.frames, fh.pin_count = 0) :
    ∀ (i : Nat) (fh : FrameHeader), bpm.frames[i]? = some fh →
      fh.pin_count = 0 := by
  intro i fh hfh
  exact h fh (List.mem_iff_getElem?.mpr ⟨i, hfh⟩)

/-! ## C1: the pre-acquire state and assembly helpers -/

/-- The pool state just before the guard constructor runs during a fetch of
page `q` into frame `fid`: the mapping is published, the frame is unpinned
and already marked non-evictable, everything else is as in `MidInv`. -/
def PreMid (bpm : BufferPoolManager) (q : PageId) (fid : FrameId) : Prop :=
  bpm.frames.length = bpm.num_frames ∧
  bpm.replacer.replacer_size = bpm.num_frames ∧
  1 ≤ bpm.replacer.k ∧
  (bpm.page_table.map Prod.fst).Nodup ∧
  (bpm.page_table.map Prod.snd).Nodup ∧
  (∀ e ∈ bpm.page_table, e.2 < bpm.num_frames) ∧
  bpm.free_frames.Nodup ∧
  (∀ f ∈ bpm.free_frames, f < bpm.num_frames) ∧
  (∀ f ∈ bpm.free_frames, ¬ residentF bpm f) ∧
  (∀ f, f < bpm.num_frames → f ∈ bpm.free_frames ∨ residentF bpm f) ∧
  ptLookup bpm.page_table q = some fid ∧
  (∀ i, i ≠ fid → ∀ fh, bpm.frames[i]? = some fh → fh.pin_count = 0) ∧
  (∃ fh, bpm.frames[fid]? = some fh ∧ fh.pin_count = 0) ∧
  (∀ f ∈ bpm.replacer.node_store, residentF bpm f) ∧
  (∀ e ∈ bpm.page_table, e.2 ∈ bpm.replacer.node_store) ∧
  (∀ f ∈ bpm.replacer.node_store, f ≠ fid → bpm.replacer.evict_flag f = true) ∧
  bpm.replacer.evict_flag fid = false ∧
  bpm.replacer.node_store.Nodup ∧
  bpm.replacer.curr_size + 1 = bpm.replacer.node_store.length ∧
  (∀ f ∈ bpm.replacer.node_store, bpm.replacer.hist f ≠ [] ∧
     (bpm.replacer.hist f).length ≤ bpm.replacer.k)

/-- Pinning the chosen frame of a `PreMid` state produces a `MidInv`
state (the frame's new header only needs pin count `1`). -/
theorem MidInv_of_pre {bpm : BufferPoolManager} {q : PageId} {fid : FrameId}
    {fh' : FrameHeader} {E : List LatchEvent}
    (hm : PreMid bpm q fid) (hfh' : fh'.pin_count = 1) :
    MidInv { bpm with frames := bpm.frames.set fid fh', events := E } q fid := by
  obtain ⟨h1, h2, h3, h4, h5, h6, h7, h8, h9, h10, h11, h12, ⟨fh, hfh, -⟩,
    h14, h15, h16, h17, h18, h19, h20⟩ := hm
  have hflen : fid < bpm.frames.length := (List.getElem?_eq_some.mp hfh).1
  refine ⟨by simpa using h1, h2, h3, h4, h5, h6, h7, h8, h9, h10, h11,
    ?_, ?_, h14, h15, h16, h17, h18, h19, h20⟩
  · intro i hi fh2 hfh2
    rw [List.getElem?_set_ne (Ne.symm hi)] at hfh2
    exact h12 i hi fh2 hfh2
  · exact ⟨fh', List.getElem?_set_eq_of_lt _ hflen, hfh'⟩

/-- Replacing a frame's header with one holding the same bytes and a
no-cleaner dirty flag preserves the tracked content of `P` (the page table
and disk staying as they were). -/
theorem PClause_transfer {bpm bpm2 : BufferPoolManager} {P : PageId}
    {B : List Nat} {fid : FrameId} {fh fh' : FrameHeader}
    (hp : PClause bpm P B) (hfh : bpm.frames[fid]? = some fh)
    (hpt : bpm2.page_table = bpm.page_table)
    (hdisk : bpm2.disk = bpm.disk)
    (hframes : bpm2.frames = bpm.frames.set fid fh')
    (hdata : fh'.data = fh.data)
    (hdirty : fh'.is_dirty = false → fh.is_dirty = false) :
    PClause bpm2 P B := by
  have hflen : fid < bpm.frames.length := (List.getElem?_eq_some.mp hfh).1
  unfold PClause at *
  rw [hpt]
  cases hlk : ptLookup bpm.page_table P with
  | none =>
    rw [hlk] at hp
    rw [hdisk]
    exact hp
  | some fidP =>
    rw [hlk] at hp
    obtain ⟨fhP, hfhP, hdataP, hdiskP⟩ := hp
    rw [hframes, hdisk]
    by_cases hf : fidP = fid
    · subst hf
      rw [hfhP] at hfh
      cases hfh
      exact ⟨fh', List.getElem?_set_eq_of_lt _ hflen, by rw [hdata]; exact hdataP,
        fun hc => hdiskP (hdirty hc)⟩
    · refine ⟨fhP, ?_, hdataP, hdiskP⟩
      rw [List.getElem?_set_ne (fun hc => hf hc.symm)]
      exact hfhP

/-- Characterisation of `prepareFrame` on an in-range, untracked frame:
the frame is reset and filled with the disk image of `q`, the mapping
`q ↦ f` is appended, the replacer starts tracking `f` non-evictable with a
single fresh timestamp. -/
theorem prepareFrame_spec (bpm : BufferPoolManager) (q : PageId) (f : FrameId)
    (hflen : f < bpm.frames.length)
    (hrs : bpm.replacer.replacer_size = bpm.num_frames)
    (hfN : f < bpm.num_frames)
    (hk : 1 ≤ bpm.replacer.k)
    (hntr : f ∉ bpm.replacer.node_store) :
    ∃ fh bpm1, bpm.frames[f]? = some fh ∧
      bpm.prepareFrame q f = some bpm1 ∧
      bpm1.frames = bpm.frames.set f
        { frame_id := fh.frame_id, data := bpm.disk q, pin_count := 0,
          is_dirty := false } ∧
      bpm1.page_table = bpm.page_table ++ [(q, f)] ∧
      bpm1.free_frames = bpm.free_frames ∧
      bpm1.disk = bpm.disk ∧
      bpm1.num_frames = bpm.num_frames ∧
      bpm1.page_size = bpm.page_size ∧
      bpm1.replacer.node_store = bpm.replacer.node_store ++ [f] ∧
      bpm1.replacer.replacer_size = bpm.replacer.replacer_size ∧
      bpm1.replacer.k = bpm.replacer.k ∧
      bpm1.replacer.hist f = [bpm.replacer.current_timestamp + 1] ∧
      (∀ x, x ≠ f → bpm1.replacer.hist x = bpm.replacer.hist x) ∧
      bpm1.replacer.evict_flag f = false ∧
      (∀ x, x ≠ f → bpm1.replacer.evict_flag x = bpm.replacer.evict_flag x) ∧
      bpm1.replacer.curr_size = bpm.replacer.curr_size := by
  obtain ⟨fh, hfh⟩ : ∃ fh, bpm.frames[f]? = some fh :=
    ⟨bpm.frames[f], List.getElem?_eq_getElem hflen⟩
  have hlt : f < bpm.replacer.replacer_size := by rw [hrs]; exact hfN
  obtain ⟨r1, hr1, hr1size, hr1k, hr1ns, hr1ts, hr1histf, hr1histo,
    hr1flagf, hr1flago, hr1curr⟩ :=
    RecordAccess_untracked_spec hlt hntr hk
  have hftr1 : f ∈ r1.node_store := by rw [hr1ns]; simp
  have hr1lt : f < r1.replacer_size := by rw [hr1size]; exact hlt
  have hse : r1.SetEvictable f false = some r1 :=
    SetEvictable_noop_false hr1lt hftr1 hr1flagf
  have hcomp : bpm.prepareFrame q f = some
      { bpm with
        frames := bpm.frames.set f
          { frame_id := fh.frame_id, data := bpm.disk q, pin_count := 0,
            is_dirty := false },
        page_table := bpm.page_table ++ [(q, f)],
        replacer := r1,
        trace := bpm.trace ++ [⟨q, false, false⟩],
        events := bpm.events ++ [.ioWait ⟨q, false, false⟩] } := by
    unfold BufferPoolManager.prepareFrame
    rw [hfh]
    unfold BufferPoolManager.scheduleRead
    simp only [BufferPoolManager.setFrame]
    rw [List.getElem?_set_eq_of_lt _ hflen]
    simp only [hr1, hse, Option.some.injEq]
    simp [List.set_set, FrameHeader.Reset]
  exact ⟨fh, _, hfh, hcomp, rfl, rfl, rfl, rfl, rfl, rfl, hr1ns, hr1size, hr1k,
    hr1histf, hr1histo, hr1flagf, hr1flago, hr1curr⟩

theorem fst_inj_of_nodup {pt : List (PageId × FrameId)}
    (hnd : (pt.map Prod.fst).Nodup) :
    ∀ e1 ∈ pt, ∀ e2 ∈ pt, e1.1 = e2.1 → e1 = e2 := by
  induction pt with
  | nil => intro e1 h; cases h
  | cons e t ih =>
    rw [List.map_cons, List.nodup_cons] at hnd
    intro e1 h1 e2 h2 heq
    rcases List.mem_cons.mp h1 with h1 | h1 <;>
      rcases List.mem_cons.mp h2 with h2 | h2
    · rw [h1, h2]
    · exfalso
      apply hnd.1
      rw [h1] at heq
      rw [heq]
      exact List.mem_map.mpr ⟨e2, h2, rfl⟩
    · exfalso
      apply hnd.1
      rw [h2] at heq
      rw [← heq]
      exact List.mem_map.mpr ⟨e1, h1, rfl⟩
    · exact ih hnd.2 e1 h1 e2 h2 heq

/-- `ptLookup` is determined by membership under key-uniqueness. -/
theorem ptLookup_of_mem {pt : List (PageId × FrameId)} {pid : PageId}
    {fid : FrameId} (hmem : (pid, fid) ∈ pt)
    (hnd : (pt.map Prod.fst).Nodup) :
    ptLookup pt pid = some fid := by
  induction pt with
  | nil => cases hmem
  | cons e t ih =>
    rw [List.map_cons, List.nodup_cons] at hnd
    rcases List.mem_cons.mp hmem with he | ht
    · rw [← he]
      simp [ptLookup, List.find?]
    · have he1 : e.1 ≠ pid := by
        intro hc
        exact hnd.1 (hc ▸ List.mem_map.mpr ⟨(pid, fid), ht, rfl⟩)
      unfold ptLookup at *
      simp only [List.find?_cons, decide_eq_false he1]
      exact ih ht hnd.2

/-! ## C1: the pre-acquire state and the guard-construction step -/

/-- The pool state at the point where a fetch of `q` (resolved to frame
`fid`) calls the guard constructor: the mapping is published and the frame
unpinned; the evictable flag of `fid` is `true` with `curr_size_` counting
every tracked frame (the hit path) or already `false` with `curr_size_` one
short (the miss path, which pre-marked the frame non-evictable). -/
def PreAcq (bpm : BufferPoolManager) (q : PageId) (fid : FrameId) : Prop :=
  bpm.frames.length = bpm.num_frames ∧
  bpm.replacer.replacer_size = bpm.num_frames ∧
  1 ≤ bpm.replacer.k ∧
  (bpm.page_table.map Prod.fst).Nodup ∧
  (bpm.page_table.map Prod.snd).Nodup ∧
  (∀ e ∈ bpm.page_table, e.2 < bpm.num_frames) ∧
  bpm.free_frames.Nodup ∧
  (∀ f ∈ bpm.free_frames, f < bpm.num_frames) ∧
  (∀ f ∈ bpm.free_frames, ¬ residentF bpm f) ∧
  (∀ f, f < bpm.num_frames → f ∈ bpm.free_frames ∨ residentF bpm f) ∧
  ptLookup bpm.page_table q = some fid ∧
  (∀ i, i ≠ fid → ∀ fh, bpm.frames[i]? = some fh → fh.pin_count = 0) ∧
  (∃ fh, bpm.frames[fid]? = some fh ∧ fh.pin_count = 0) ∧
  (∀ f ∈ bpm.replacer.node_store, residentF bpm f) ∧
  (∀ e ∈ bpm.page_table, e.2 ∈ bpm.replacer.node_store) ∧
  (∀ f ∈ bpm.replacer.node_store, f ≠ fid → bpm.replacer.evict_flag f = true) ∧
  ((bpm.replacer.evict_flag fid = true ∧
      bpm.replacer.curr_size = bpm.replacer.node_store.length) ∨
   (bpm.replacer.evict_flag fid = false ∧
      bpm.replacer.curr_size + 1 = bpm.replacer.node_store.length)) ∧
  bpm.replacer.node_store.Nodup ∧
  (∀ f ∈ bpm.replacer.node_store, bpm.replacer.hist f ≠ [] ∧
     (bpm.replacer.hist f).length ≤ bpm.replacer.k)

/-- Running either guard constructor from a `PreAcq` state yields a valid
guard and a `MidInv` state; the tracked content of any page is preserved
(the write constructor only sets the dirty flag, weakening nothing). -/
theorem acquire_assemble (bpm : BufferPoolManager) (q : PageId) (fid : FrameId)
    (hpre : PreAcq bpm q fid) :
    (∃ bpmR, ReadPageGuard.acquire q fid bpm =
        some (⟨(q : Int), fid, true⟩, bpmR) ∧
      MidInv bpmR q fid ∧ (∀ P B, PClause bpm P B → PClause bpmR P B) ∧
      bpmR.num_frames = bpm.num_frames ∧ bpmR.page_size = bpm.page_size) ∧
    (∃ bpmW, WritePageGuard.acquire q fid bpm =
        some (⟨(q : Int), fid, true⟩, bpmW) ∧
      MidInv bpmW q fid ∧ (∀ P B, PClause bpm P B → PClause bpmW P B) ∧
      bpmW.num_frames = bpm.num_frames ∧ bpmW.page_size = bpm.page_size ∧
      (∃ fhW, bpmW.frames[fid]? = some fhW ∧ fhW.pin_count = 1 ∧
        fhW.is_dirty = true ∧ bpmW.page_table = bpm.page_table ∧
        bpmW.disk = bpm.disk)) := by
  obtain ⟨h1, h2, h3, h4, h5, h6, h7, h8, h9, h10, h11, h12,
    ⟨fh, hfh, hpin0⟩, h14, h15, h16, h17, h18, h19⟩ := hpre
  have hflen : fid < bpm.frames.length := (List.getElem?_eq_some.mp hfh).1
  have htr : fid ∈ bpm.replacer.node_store := h15 _ (ptLookup_mem h11)
  have hlt : fid < bpm.replacer.replacer_size := by
    rw [h2]; exact h6 _ (ptLookup_mem h11)
  have hlen1 : 1 ≤ bpm.replacer.node_store.length :=
    List.length_pos_of_mem htr
  -- the SetEvictable step of the constructor
  obtain ⟨rep, hrep, hrepflag, hrepcurr⟩ :
      ∃ rep, bpm.replacer.SetEvictable fid false = some rep ∧
        (rep.evict_flag fid = false ∧
          (∀ f, f ≠ fid → rep.evict_flag f = bpm.replacer.evict_flag f)) ∧
        rep.curr_size + 1 = bpm.replacer.node_store.length := by
    rcases h17 with ⟨hfl, hsz⟩ | ⟨hfl, hsz⟩
    · refine ⟨_, SetEvictable_false_of_true hlt htr hfl, ⟨by simp,
        fun f hf => by simp [hf]⟩, ?_⟩
      simp only []
      omega
    · exact ⟨bpm.replacer, SetEvictable_noop_false hlt htr hfl,
        ⟨hfl, fun f _ => rfl⟩, hsz⟩
  obtain ⟨-, -, hrepns, hrephist, -, -⟩ := SetEvictable_frame_fields hrep
  have hpremid : PreMid { bpm with replacer := rep } q fid := by
    refine ⟨h1, by rw [(SetEvictable_frame_fields hrep).1]; exact h2,
      by rw [(SetEvictable_frame_fields hrep).2.1]; exact h3,
      h4, h5, h6, h7, h8, h9, h10, h11, h12, ⟨fh, hfh, hpin0⟩, ?_, ?_, ?_,
      hrepflag.1, ?_, ?_, ?_⟩
    · rw [hrepns]; exact h14
    · rw [hrepns]; exact h15
    · rw [hrepns]
      intro f hf hne
      rw [hrepflag.2 f hne]
      exact h16 f hf hne
    · rw [hrepns]; exact h18
    · rw [hrepns]; exact hrepcurr
    · rw [hrepns, hrephist, (SetEvictable_frame_fields hrep).2.1]; exact h19
  constructor
  · refine ⟨_, readAcquire_eq q hfh hrep, ?_, ?_, rfl, rfl⟩
    · exact MidInv_of_pre hpremid (by simp [hpin0])
    · intro P B hp
      exact @PClause_transfer { bpm with replacer := rep } _ _ _ _ _ _ hp hfh
        rfl rfl rfl rfl (fun hc => hc)
  · refine ⟨_, writeAcquire_eq q hfh hrep, ?_, ?_, rfl, rfl, ?_⟩
    · exact MidInv_of_pre hpremid (by simp [hpin0])
    · intro P B hp
      exact @PClause_transfer { bpm with replacer := rep } _ _ _ _ _ _ hp hfh
        rfl rfl rfl rfl (fun hc => by cases hc)
    · exact ⟨_, List.getElem?_set_eq_of_lt _ hflen, by simp [hpin0], rfl,
        rfl, rfl⟩

/-- Replacing the pinned frame's header by another one with pin count `1`
(e.g. after writing bytes through the guard) keeps `MidInv`. -/
theorem MidInv_set_same_pin {bpm : BufferPoolManager} {q : PageId}
    {fid : FrameId} {fh' : FrameHeader}
    (hm : MidInv bpm q fid) (hpin : fh'.pin_count = 1) :
    MidInv { bpm with frames := bpm.frames.set fid fh' } q fid := by
  obtain ⟨h1, h2, h3, h4, h5, h6, h7, h8, h9, h10, h11, h12, ⟨fh, hfh, -⟩,
    h14, h15, h16, h17, h18, h19, h20⟩ := hm
  have hflen : fid < bpm.frames.length := (List.getElem?_eq_some.mp hfh).1
  refine ⟨by simpa using h1, h2, h3, h4, h5, h6, h7, h8, h9, h10, h11,
    ?_, ?_, h14, h15, h16, h17, h18, h19, h20⟩
  · intro i hi fh2 hfh2
    rw [List.getElem?_set_ne (Ne.symm hi)] at hfh2
    exact h12 i hi fh2 hfh2
  · exact ⟨fh', List.getElem?_set_eq_of_lt _ hflen, hpin⟩

/-- Dropping the guard of a `MidInv` state restores the quiescent invariant
and only zeroes the frame's pin count. -/
theorem drop_read_spec (bpm : BufferPoolManager) (q : PageId) (fid : FrameId)
    (g : ReadPageGuard) (hm : MidInv bpm q fid)
    (hgv : g.is_valid = true) (hgf : g.frame_id = fid) :
    ∃ g2 bpm2, ReadPageGuard.Drop g bpm = some (g2, bpm2) ∧ QInv bpm2 ∧
      (∀ P B, PClause bpm P B → PClause bpm2 P B) ∧
      bpm2.num_frames = bpm.num_frames ∧ bpm2.page_size = bpm.page_size ∧
      bpm2.page_table = bpm.page_table ∧ bpm2.disk = bpm.disk ∧
      (∀ fh, bpm.frames[fid]? = some fh →
        bpm2.frames[fid]? = some { fh with pin_count := 0 }) := by
  obtain ⟨h1, h2, h3, h4, h5, h6, h7, h8, h9, h10, h11, h12, ⟨fh, hfh, hpin⟩,
    h14, h15, h16, h17, h18, h19, h20⟩ := hm
  have hflen : fid < bpm.frames.length := (List.getElem?_eq_some.mp hfh).1
  have htr : fid ∈ bpm.replacer.node_store := h15 _ (ptLookup_mem h11)
  have hlt : fid < bpm.replacer.replacer_size := by
    rw [h2]; exact h6 _ (ptLookup_mem h11)
  have hrep := SetEvictable_true_of_false hlt htr h17
  have heq := @readDrop_eq_one _ _ fh _ hgv (hgf ▸ hfh) hpin (hgf ▸ hrep)
  rw [hgf] at heq
  refine ⟨_, _, heq, ?_, ?_, rfl, rfl, rfl, rfl, ?_⟩
  · refine ⟨by simpa using h1, h2, h3, h4, h5, h6, h7, h8, h9, h10, ?_,
      h14, h15, ?_, ?_, ?_, ?_⟩
    · intro fh2 hfh2
      rcases List.mem_iff_getElem?.mp hfh2 with ⟨i, hi⟩
      by_cases hieq : i = fid
      · subst hieq
        rw [List.getElem?_set_eq_of_lt _ hflen] at hi
        cases hi
        rfl
      · rw [List.getElem?_set_ne (Ne.symm hieq)] at hi
        exact h12 i hieq fh2 hi
    · intro f hf
      by_cases hfe : f = fid
      · subst hfe; simp
      · simp only [hfe, if_neg, if_false]
        exact h16 f hf hfe
    · exact h18
    · simp only []
      omega
    · exact h20
  · intro P B hp
    exact PClause_transfer hp hfh rfl rfl rfl rfl (fun hc => hc)
  · intro fh2 hfh2
    rw [hfh] at hfh2
    cases hfh2
    have := List.getElem?_set_eq_of_lt
      (l := bpm.frames) { fh with pin_count := 0 } hflen
    simpa [hpin] using this

/-- After the eviction of victim frame `v` (which backed page `vpid`) the
pool state `bpmB` — mapping erased, replacer tracking erased, frame possibly
cleaned by the write-back — prepares `v` for page `q` and reaches the
pre-acquire state. -/
theorem preAcq_after_evict (bpm : BufferPoolManager) (q vpid : PageId)
    (v : FrameId) (bpmB : BufferPoolManager)
    (hq : QInv bpm)
    (hlk : ptLookup bpm.page_table q = none)
    (hvmem : (vpid, v) ∈ bpm.page_table)
    (hvns : v ∈ bpm.replacer.node_store)
    (hfree : bpm.free_frames = [])
    (hBlen : bpmB.frames.length = bpm.frames.length)
    (hBpin : ∀ (i : Nat) (fh : FrameHeader), bpmB.frames[i]? = some fh →
      fh.pin_count = 0)
    (hBpt : bpmB.page_table = ptErase bpm.page_table vpid)
    (hBfree : bpmB.free_frames = [])
    (hBrep : bpmB.replacer = bpm.replacer.eraseFrame v)
    (hBN : bpmB.num_frames = bpm.num_frames)
    (hBps : bpmB.page_size = bpm.page_size) :
    ∃ fh2 bpmC, bpmB.prepareFrame q v = some bpmC ∧
      bpmB.frames[v]? = some fh2 ∧
      PreAcq bpmC q v ∧
      bpmC.num_frames = bpm.num_frames ∧ bpmC.page_size = bpm.page_size ∧
      bpmC.page_table = ptErase bpm.page_table vpid ++ [(q, v)] ∧
      bpmC.frames = bpmB.frames.set v
        { frame_id := fh2.frame_id, data := bpmB.disk q, pin_count := 0,
          is_dirty := false } ∧
      bpmC.disk = bpmB.disk := by
  obtain ⟨hq1, hq2, hq3, hq4, hq5, hq6, hq7, hq8, hq9, hq10, hq11, hq12,
    hq13, hq14, hq15, hq16, hq17⟩ := hq
  have hkeys : ∀ e ∈ bpm.page_table, e.1 ≠ q := ptLookup_eq_none_iff.mp hlk
  have hvN : v < bpm.num_frames := hq6 _ hvmem
  have hvlenB : v < bpmB.frames.length := by rw [hBlen, hq1]; exact hvN
  have hBrs : bpmB.replacer.replacer_size = bpmB.num_frames := by
    rw [hBrep, hBN]
    exact hq2
  have hfNB : v < bpmB.num_frames := by rw [hBN]; exact hvN
  have hBk : 1 ≤ bpmB.replacer.k := by rw [hBrep]; exact hq3
  have hntrB : v ∉ bpmB.replacer.node_store := by
    rw [hBrep]
    unfold LRUKReplacer.eraseFrame
    exact hq15.not_mem_erase
  obtain ⟨fh2, bpmC, hfh2, hprep, hCframes, hCpt, hCfree, hCdisk, hCN,
    hCps, hCns, hCrs, hCk, hChf, hCho, hCff, hCfo, hCcu⟩ :=
    prepareFrame_spec bpmB q v hvlenB hBrs hfNB hBk hntrB
  refine ⟨fh2, bpmC, hprep, hfh2, ?_, by rw [hCN, hBN], by rw [hCps, hBps],
    by rw [hCpt, hBpt], hCframes, hCdisk⟩
  refine ⟨?_, ?_, ?_, ?_, ?_, ?_, ?_, ?_, ?_, ?_, ?_, ?_, ?_, ?_, ?_,
    ?_, ?_, ?_, ?_⟩
  · rw [hCframes, List.length_set, hBlen, hq1, hCN, hBN]
  · rw [hCrs, hCN]; exact hBrs
  · rw [hCk]; exact hBk
  · rw [hCpt, hBpt, List.map_append, List.nodup_append]
    refine ⟨ptErase_fst_nodup hq4, by simp, ?_⟩
    intro a ha
    obtain ⟨e, he, hea⟩ := List.mem_map.mp ha
    simp only [List.map_cons, List.map_nil, List.mem_singleton]
    intro hc
    exact hkeys e (mem_ptErase.mp he).1 (by rw [hea, hc])
  · rw [hCpt, hBpt, List.map_append, List.nodup_append]
    refine ⟨ptErase_snd_nodup hq5, by simp, ?_⟩
    intro a ha
    simp only [List.map_cons, List.map_nil, List.mem_singleton]
    intro hc
    rw [hc] at ha
    exact erase_snd_not_mem hvmem hq5 ha
  · rw [hCpt, hBpt, hCN, hBN]
    intro e he
    rcases List.mem_append.mp he with he | he
    · exact hq6 e (mem_ptErase.mp he).1
    · rw [List.mem_singleton.mp he]; exact hvN
  · rw [hCfree, hBfree]; exact List.nodup_nil
  · rw [hCfree, hBfree]
    intro x hx
    cases hx
  · rw [hCfree, hBfree]
    intro x hx
    cases hx
  · rw [hCfree, hBfree]
    intro x hx
    right
    unfold residentF
    rw [hCpt, hBpt, List.map_append]
    have hxN : x < bpm.num_frames := by rw [hCN, hBN] at hx; exact hx
    rcases hq10 x hxN with hfx | hres
    · rw [hfree] at hfx
      cases hfx
    · unfold residentF at hres
      obtain ⟨e, he, hex⟩ := List.mem_map.mp hres
      by_cases hevpid : e.1 = vpid
      · have heq : e = (vpid, v) :=
          fst_inj_of_nodup hq4 e he (vpid, v) hvmem (by simpa using hevpid)
        apply List.mem_append_right
        have hxv : x = v := by rw [← hex, heq]
        simp [hxv]
      · apply List.mem_append_left
        exact List.mem_map.mpr ⟨e, mem_ptErase.mpr ⟨he, hevpid⟩, hex⟩
  · rw [hCpt, hBpt]
    exact ptLookup_append_self (ptLookup_eq_none_iff.mpr
      (fun e he => hkeys e (mem_ptErase.mp he).1))
  · rw [hCframes]
    intro i hi fh hfh
    rw [List.getElem?_set_ne (Ne.symm hi)] at hfh
    exact hBpin i fh hfh
  · rw [hCframes]
    exact ⟨_, List.getElem?_set_eq_of_lt _ hvlenB, rfl⟩
  · rw [hCns]
    intro x hx
    unfold residentF
    rw [hCpt, hBpt, List.map_append]
    rcases List.mem_append.mp hx with hx | hx
    · rw [hBrep] at hx
      have hx' : x ∈ bpm.replacer.node_store.erase v := hx
      have hxv : x ≠ v := (hq15.mem_erase_iff.mp hx').1
      have hxns : x ∈ bpm.replacer.node_store := (hq15.mem_erase_iff.mp hx').2
      have hres := hq12 x hxns
      unfold residentF at hres
      obtain ⟨e, he, hex⟩ := List.mem_map.mp hres
      have hevpid : e.1 ≠ vpid := by
        intro hc
        have heq : e = (vpid, v) :=
          fst_inj_of_nodup hq4 e he (vpid, v) hvmem (by simpa using hc)
        apply hxv
        rw [← hex, heq]
      apply List.mem_append_left
      exact List.mem_map.mpr ⟨e, mem_ptErase.mpr ⟨he, hevpid⟩, hex⟩
    · apply List.mem_append_right
      simpa using hx
  · rw [hCpt, hBpt, hCns]
    intro e he
    rcases List.mem_append.mp he with he | he
    · obtain ⟨hept, hevpid⟩ := mem_ptErase.mp he
      have hens : e.2 ∈ bpm.replacer.node_store := hq13 e hept
      have hev : e.2 ≠ v := by
        intro hc
        have heq : e = (vpid, v) :=
          snd_inj_of_nodup hq5 e hept (vpid, v) hvmem (by simpa using hc)
        apply hevpid
        rw [heq]
      apply List.mem_append_left
      rw [hBrep]
      show e.2 ∈ bpm.replacer.node_store.erase v
      exact hq15.mem_erase_iff.mpr ⟨hev, hens⟩
    · apply List.mem_append_right
      rw [List.mem_singleton.mp he]
      simp
  · rw [hCns]
    intro x hx hxv
    rcases List.mem_append.mp hx with hx | hx
    · rw [hBrep] at hx
      have hx' : x ∈ bpm.replacer.node_store.erase v := hx
      have hxns : x ∈ bpm.replacer.node_store := (hq15.mem_erase_iff.mp hx').2
      rw [hCfo x hxv, hBrep]
      simp only [LRUKReplacer.eraseFrame]
      rw [if_neg hxv]
      exact hq14 x hxns
    · exact absurd (List.mem_singleton.mp hx) hxv
  · right
    refine ⟨hCff, ?_⟩
    rw [hCcu, hCns, hBrep]
    show bpm.replacer.curr_size - 1 + 1 =
      (bpm.replacer.node_store.erase v ++ [v]).length
    rw [List.length_append, List.length_erase_of_mem hvns, hq16]
    simp only [List.length_singleton]
  · rw [hCns, hBrep]
    show (bpm.replacer.node_store.erase v ++ [v]).Nodup
    rw [List.nodup_append]
    refine ⟨hq15.erase v, by simp, ?_⟩
    intro a ha
    simp only [List.mem_singleton]
    intro hc
    exact (hq15.mem_erase_iff.mp ha).1 hc
  · rw [hCns, hCk]
    intro x hx
    rcases List.mem_append.mp hx with hx | hx
    · rw [hBrep] at hx
      have hx' : x ∈ bpm.replacer.node_store.erase v := hx
      have hxv : x ≠ v := (hq15.mem_erase_iff.mp hx').1
      have hxns : x ∈ bpm.replacer.node_store := (hq15.mem_erase_iff.mp hx').2
      rw [hCho x hxv, hBrep]
      simp only [LRUKReplacer.eraseFrame]
      rw [if_neg hxv]
      exact hq17 x hxns
    · rw [List.mem_singleton.mp hx, hChf]
      exact ⟨by simp, by simpa using hBk⟩

/-- Characterisation of miss resolution (`selectFrame` followed by
`prepareFrame`) from a quiescent state in which `q` is not resident: either
the pool has no frames at all and no victim exists, or a frame is secured
and prepared, reaching the pre-acquire state with every page's tracked
content preserved. -/
theorem miss_resolve_spec (bpm : BufferPoolManager) (q : PageId)
    (hq : QInv bpm) (hlk : ptLookup bpm.page_table q = none) :
    (bpm.num_frames = 0 ∧ bpm.selectFrame = some (none, bpm)) ∨
    (∃ fid bpmB bpmC, bpm.selectFrame = some (some fid, bpmB) ∧
       bpmB.prepareFrame q fid = some bpmC ∧
       PreAcq bpmC q fid ∧
       (∀ P B, PClause bpm P B → PClause bpmC P B) ∧
       bpmC.num_frames = bpm.num_frames ∧ bpmC.page_size = bpm.page_size) := by
  obtain ⟨hq1, hq2, hq3, hq4, hq5, hq6, hq7, hq8, hq9, hq10, hq11, hq12,
    hq13, hq14, hq15, hq16, hq17⟩ := hq
  have hkeys : ∀ e ∈ bpm.page_table, e.1 ≠ q := ptLookup_eq_none_iff.mp hlk
  cases hfree : bpm.free_frames with
  | cons f rest =>
    -- a free frame is available
    right
    have hfmem : f ∈ bpm.free_frames := by rw [hfree]; simp
    have hfN : f < bpm.num_frames := hq8 f hfmem
    have hflen : f < bpm.frames.length := by rw [hq1]; exact hfN
    have hnres : ¬ residentF bpm f := hq9 f hfmem
    have hntr : f ∉ bpm.replacer.node_store := fun hc => hnres (hq12 f hc)
    have hfrest : f ∉ rest := by
      have := hq7
      rw [hfree, List.nodup_cons] at this
      exact this.1
    have hrestnd : rest.Nodup := by
      have := hq7
      rw [hfree, List.nodup_cons] at this
      exact this.2
    obtain ⟨fh, bpmC, hfh, hprep, hCframes, hCpt, hCfree, hCdisk, hCN,
      hCps, hCns, hCrs, hCk, hChf, hCho, hCff, hCfo, hCcu⟩ :=
      prepareFrame_spec { bpm with free_frames := rest } q f hflen hq2 hfN
        hq3 hntr
    have hsel : bpm.selectFrame = some (some f, { bpm with free_frames := rest }) := by
      unfold BufferPoolManager.selectFrame
      rw [hfree]
    refine ⟨f, _, bpmC, hsel, hprep, ?_, ?_, hCN, hCps⟩
    · -- PreAcq of the prepared state
      refine ⟨?_, ?_, ?_, ?_, ?_, ?_, ?_, ?_, ?_, ?_, ?_, ?_, ?_, ?_, ?_,
        ?_, ?_, ?_, ?_⟩
      · rw [hCframes, hCN]; simpa using hq1
      · rw [hCrs, hCN]; exact hq2
      · rw [hCk]; exact hq3
      · rw [hCpt, List.map_append, List.nodup_append]
        refine ⟨hq4, by simp, ?_⟩
        intro a ha
        obtain ⟨e, he, hea⟩ := List.mem_map.mp ha
        simp only [List.map_cons, List.map_nil, List.mem_singleton]
        intro hc
        exact hkeys e he (by rw [hea, hc])
      · rw [hCpt, List.map_append, List.nodup_append]
        refine ⟨hq5, by simp, ?_⟩
        intro a ha
        simp only [List.map_cons, List.map_nil, List.mem_singleton]
        intro hc
        exact hnres (by rw [hc] at ha; exact ha)
      · rw [hCpt, hCN]
        intro e he
        rcases List.mem_append.mp he with he | he
        · exact hq6 e he
        · rw [List.mem_singleton.mp he]; exact hfN
      · rw [hCfree]; exact hrestnd
      · rw [hCfree, hCN]
        intro x hx
        exact hq8 x (by rw [hfree]; exact List.mem_cons_of_mem f hx)
      · rw [hCfree]
        intro x hx hres
        unfold residentF at hres
        rw [hCpt, List.map_append] at hres
        rcases List.mem_append.mp hres with hres | hres
        · exact hq9 x (by rw [hfree]; exact List.mem_cons_of_mem f hx) hres
        · simp only [List.map_cons, List.map_nil, List.mem_singleton] at hres
          rw [hres] at hx
          exact hfrest hx
      · rw [hCfree, hCN]
        intro x hx
        rcases hq10 x hx with hfx | hres
        · rw [hfree] at hfx
          rcases List.mem_cons.mp hfx with hfx | hfx
          · right
            unfold residentF
            rw [hCpt, List.map_append]
            apply List.mem_append_right
            simp [hfx]
          · left; exact hfx
        · right
          unfold residentF at hres ⊢
          rw [hCpt, List.map_append]
          exact List.mem_append_left _ hres
      · rw [hCpt]
        exact ptLookup_append_self hlk
      · rw [hCframes]
        intro i hi fh2 hfh2
        rw [List.getElem?_set_ne (Ne.symm hi)] at hfh2
        exact frames_pin_zero_of_mem hq11 i fh2 hfh2
      · rw [hCframes]
        exact ⟨_, List.getElem?_set_eq_of_lt _ hflen, rfl⟩
      · rw [hCns]
        intro x hx
        unfold residentF
        rw [hCpt, List.map_append]
        rcases List.mem_append.mp hx with hx | hx
        · exact List.mem_append_left _ (hq12 x hx)
        · apply List.mem_append_right
          simpa using hx
      · rw [hCpt, hCns]
        intro e he
        rcases List.mem_append.mp he with he | he
        · exact List.mem_append_left _ (hq13 e he)
        · apply List.mem_append_right
          rw [List.mem_singleton.mp he]
          simp
      · rw [hCns]
        intro x hx hxf
        rcases List.mem_append.mp hx with hx | hx
        · rw [hCfo x hxf]
          exact hq14 x hx
        · rw [List.mem_singleton.mp hx] at hxf
          exact absurd rfl hxf
      · right
        refine ⟨hCff, ?_⟩
        rw [hCcu, hCns, hq16]
        simp
      · rw [hCns]
        rw [List.nodup_append]
        exact ⟨hq15, by simp, fun a ha => by
          simp only [List.mem_singleton]
          intro hc
          exact hntr (hc ▸ ha)⟩
      · rw [hCns, hCk]
        intro x hx
        rcases List.mem_append.mp hx with hx | hx
        · rw [hCho x (fun hc => hntr (hc ▸ hx))]
          exact hq17 x hx
        · rw [List.mem_singleton.mp hx, hChf]
          exact ⟨by simp, by simpa using hq3⟩
    · -- tracked content preserved
      intro P B hp
      unfold PClause at hp ⊢
      rw [hCpt, hCframes, hCdisk]
      by_cases hPq : P = q
      · subst hPq
        rw [ptLookup_append_self hlk]
        rw [hlk] at hp
        exact ⟨_, List.getElem?_set_eq_of_lt _ hflen, hp, fun _ => hp⟩
      · rw [ptLookup_append_ne hPq]
        cases hlkP : ptLookup bpm.page_table P with
        | none => rw [hlkP] at hp; exact hp
        | some fidP =>
          rw [hlkP] at hp
          obtain ⟨fhP, hfhP, hdP, hcP⟩ := hp
          have hfPne : fidP ≠ f := by
            intro hc
            apply hnres
            unfold residentF
            exact List.mem_map.mpr ⟨(P, fidP), ptLookup_mem hlkP, by simp [hc]⟩
          refine ⟨fhP, ?_, hdP, hcP⟩
          rw [List.getElem?_set_ne (fun hc => hfPne hc.symm)]
          exact hfhP
  | nil =>
    -- no free frame: evict
    cases hpt : bpm.page_table with
    | nil =>
      -- empty pool: nothing to evict either
      left
      have hN : bpm.num_frames = 0 := by
        by_contra hc
        rcases hq10 0 (Nat.pos_of_ne_zero hc) with h | h
        · rw [hfree] at h; cases h
        · unfold residentF at h
          rw [hpt] at h
          cases h
      have hns : bpm.replacer.node_store = [] := by
        cases hcns : bpm.replacer.node_store with
        | nil => rfl
        | cons x t =>
          exfalso
          have := hq12 x (by rw [hcns]; simp)
          unfold residentF at this
          rw [hpt] at this
          cases this
      have hcz : bpm.replacer.curr_size = 0 := by
        rw [hq16, hns]; rfl
      refine ⟨hN, ?_⟩
      unfold BufferPoolManager.selectFrame
      nth_rewrite 1 [hfree]
      rw [LRUKReplacer.Evict, if_pos hcz]
    | cons e0 pt' =>
      -- evict a victim
      right
      have hns_ne : bpm.replacer.node_store ≠ [] := by
        intro hc
        have := hq13 e0 (by rw [hpt]; simp)
        rw [hc] at this
        cases this
      obtain ⟨v, hEv, hvns⟩ := Evict_succeeds bpm.replacer hq3 hq14
        (fun x hx => (hq17 x hx).1) hq16 hns_ne
      obtain ⟨vpid, hvmem⟩ := residentF_lookup (hq12 v hvns)
      have hfind : FindPageIdByFrame bpm.page_table v = some vpid :=
        FindPageIdByFrame_some_of_mem hvmem hq5
      have hvN : v < bpm.num_frames := hq6 _ hvmem
      have hvlen : v < bpm.frames.length := by rw [hq1]; exact hvN
      obtain ⟨vfh, hvfh⟩ : ∃ fh, bpm.frames[v]? = some fh :=
        ⟨bpm.frames[v], List.getElem?_eq_getElem hvlen⟩
      have hvq : vpid ≠ q := hkeys _ hvmem
      cases hvd : vfh.is_dirty with
      | true =>
        have hsel : bpm.selectFrame = some (some v,
            { bpm with
              replacer := bpm.replacer.eraseFrame v,
              disk := fun p => if p = vpid then vfh.data else bpm.disk p,
              trace := bpm.trace ++ [⟨vpid, true, false⟩],
              events := bpm.events ++ [.ioWait ⟨vpid, true, false⟩],
              frames := bpm.frames.set v { vfh with is_dirty := false },
              page_table := ptErase bpm.page_table vpid }) := by
          unfold BufferPoolManager.selectFrame
          rw [hfree, hEv]
          simp [hfind, hvfh, hvd, BufferPoolManager.scheduleWrite,
            BufferPoolManager.setFrame]
        obtain ⟨fh2, bpmC, hprep, hfh2, hpre, hCN, hCps, hCpt, hCframes,
          hCdisk⟩ := preAcq_after_evict bpm q vpid v
          { bpm with
            replacer := bpm.replacer.eraseFrame v,
            disk := fun p => if p = vpid then vfh.data else bpm.disk p,
            trace := bpm.trace ++ [⟨vpid, true, false⟩],
            events := bpm.events ++ [.ioWait ⟨vpid, true, false⟩],
            frames := bpm.frames.set v { vfh with is_dirty := false },
            page_table := ptErase bpm.page_table vpid }
          ⟨hq1, hq2, hq3, hq4, hq5, hq6, hq7, hq8, hq9, hq10, hq11, hq12,
            hq13, hq14, hq15, hq16, hq17⟩
          hlk hvmem hvns hfree (by simp)
          (by
            intro i fh hfhi
            by_cases hiv : i = v
            · rw [hiv, List.getElem?_set_eq_of_lt _ hvlen] at hfhi
              cases hfhi
              simpa using frames_pin_zero_of_mem hq11 v vfh hvfh
            · rw [List.getElem?_set_ne (Ne.symm hiv)] at hfhi
              exact frames_pin_zero_of_mem hq11 i fh hfhi)
          rfl hfree rfl rfl rfl
        refine ⟨v, _, bpmC, hsel, hprep, hpre, ?_, by rw [hCN],
          by rw [hCps]⟩
        intro P B hp
        unfold PClause at hp ⊢
        rw [hCpt, hCframes, hCdisk]
        by_cases hPq : P = q
        · subst hPq
          rw [hlk] at hp
          rw [ptLookup_append_self (by
            rw [ptLookup_eq_none_iff]
            intro e he
            exact hkeys e (mem_ptErase.mp he).1)]
          refine ⟨_, List.getElem?_set_eq_of_lt _ (by simpa using hvlen),
            ?_, ?_⟩
          · dsimp only
            rw [if_neg (Ne.symm hvq)]
            exact hp
          · intro _
            dsimp only
            rw [if_neg (Ne.symm hvq)]
            exact hp
        · rw [ptLookup_append_ne hPq]
          by_cases hPv : P = vpid
          · subst hPv
            rw [ptLookup_erase_self]
            have hlkv : ptLookup bpm.page_table P = some v :=
              ptLookup_of_mem hvmem hq4
            rw [hlkv] at hp
            obtain ⟨fhP, hfhP, hdP, -⟩ := hp
            rw [hvfh] at hfhP
            cases hfhP
            dsimp only
            rw [if_pos rfl]
            exact hdP
          · rw [ptLookup_erase_ne hPv]
            cases hlkP : ptLookup bpm.page_table P with
            | none =>
              rw [hlkP] at hp
              dsimp only
              rw [if_neg hPv]
              exact hp
            | some fidP =>
              rw [hlkP] at hp
              obtain ⟨fhP, hfhP, hdP, hcP⟩ := hp
              have hfPv : fidP ≠ v := by
                intro hc
                have := snd_inj_of_nodup hq5 (P, fidP) (ptLookup_mem hlkP)
                  (vpid, v) hvmem (by simpa using hc)
                exact hPv (by
                  have := congrArg Prod.fst this
                  simpa using this)
              refine ⟨fhP, ?_, hdP, ?_⟩
              · rw [List.getElem?_set_ne (fun hc => hfPv hc.symm)]
                dsimp only
                rw [List.getElem?_set_ne (fun hc => hfPv hc.symm)]
                exact hfhP
              · intro hc
                dsimp only
                rw [if_neg hPv]
                exact hcP hc
      | false =>
        have hsel : bpm.selectFrame = some (some v,
            { bpm with
              replacer := bpm.replacer.eraseFrame v,
              page_table := ptErase bpm.page_table vpid }) := by
          unfold BufferPoolManager.selectFrame
          rw [hfree, hEv]
          simp [hfind, hvfh, hvd]
        obtain ⟨fh2, bpmC, hprep, hfh2, hpre, hCN, hCps, hCpt, hCframes,
          hCdisk⟩ := preAcq_after_evict bpm q vpid v
          { bpm with
            replacer := bpm.replacer.eraseFrame v,
            page_table := ptErase bpm.page_table vpid }
          ⟨hq1, hq2, hq3, hq4, hq5, hq6, hq7, hq8, hq9, hq10, hq11, hq12,
            hq13, hq14, hq15, hq16, hq17⟩
          hlk hvmem hvns hfree rfl
          (fun i fh hfhi => frames_pin_zero_of_mem hq11 i fh hfhi)
          rfl hfree rfl rfl rfl
        refine ⟨v, _, bpmC, hsel, hprep, hpre, ?_, by rw [hCN],
          by rw [hCps]⟩
        intro P B hp
        unfold PClause at hp ⊢
        rw [hCpt, hCframes, hCdisk]
        by_cases hPq : P = q
        · subst hPq
          rw [hlk] at hp
          rw [ptLookup_append_self (by
            rw [ptLookup_eq_none_iff]
            intro e he
            exact hkeys e (mem_ptErase.mp he).1)]
          exact ⟨_, List.getElem?_set_eq_of_lt _ (by simpa using hvlen),
            hp, fun _ => hp⟩
        · rw [ptLookup_append_ne hPq]
          by_cases hPv : P = vpid
          · subst hPv
            rw [ptLookup_erase_self]
            have hlkv : ptLookup bpm.page_table P = some v :=
              ptLookup_of_mem hvmem hq4
            rw [hlkv] at hp
            obtain ⟨fhP, hfhP, -, hcP⟩ := hp
            rw [hvfh] at hfhP
            cases hfhP
            exact hcP hvd
          · rw [ptLookup_erase_ne hPv]
            cases hlkP : ptLookup bpm.page_table P with
            | none =>
              rw [hlkP] at hp
              exact hp
            | some fidP =>
              rw [hlkP] at hp
              obtain ⟨fhP, hfhP, hdP, hcP⟩ := hp
              have hfPv : fidP ≠ v := by
                intro hc
                have := snd_inj_of_nodup hq5 (P, fidP) (ptLookup_mem hlkP)
                  (vpid, v) hvmem (by simpa using hc)
                exact hPv (by
                  have := congrArg Prod.fst this
                  simpa using this)
              refine ⟨fhP, ?_, hdP, hcP⟩
              rw [List.getElem?_set_ne (fun hc => hfPv hc.symm)]
              exact hfhP

/-- As `drop_read_spec`, for a write guard. -/
theorem drop_write_spec (bpm : BufferPoolManager) (q : PageId) (fid : FrameId)
    (g : WritePageGuard) (hm : MidInv bpm q fid)
    (hgv : g.is_valid = true) (hgf : g.frame_id = fid) :
    ∃ g2 bpm2, WritePageGuard.Drop g bpm = some (g2, bpm2) ∧ QInv bpm2 ∧
      (∀ P B, PClause bpm P B → PClause bpm2 P B) ∧
      bpm2.num_frames = bpm.num_frames ∧ bpm2.page_size = bpm.page_size ∧
      bpm2.page_table = bpm.page_table ∧ bpm2.disk = bpm.disk ∧
      (∀ fh, bpm.frames[fid]? = some fh →
        bpm2.frames[fid]? = some { fh with pin_count := 0 }) := by
  obtain ⟨h1, h2, h3, h4, h5, h6, h7, h8, h9, h10, h11, h12, ⟨fh, hfh, hpin⟩,
    h14, h15, h16, h17, h18, h19, h20⟩ := hm
  have hflen : fid < bpm.frames.length := (List.getElem?_eq_some.mp hfh).1
  have htr : fid ∈ bpm.replacer.node_store := h15 _ (ptLookup_mem h11)
  have hlt : fid < bpm.replacer.replacer_size := by
    rw [h2]; exact h6 _ (ptLookup_mem h11)
  have hrep := SetEvictable_true_of_false hlt htr h17
  have heq := @writeDrop_eq_one _ _ fh _ hgv (hgf ▸ hfh) hpin (hgf ▸ hrep)
  rw [hgf] at heq
  refine ⟨_, _, heq, ?_, ?_, rfl, rfl, rfl, rfl, ?_⟩
  · refine ⟨by simpa using h1, h2, h3, h4, h5, h6, h7, h8, h9, h10, ?_,
      h14, h15, ?_, ?_, ?_, ?_⟩
    · intro fh2 hfh2
      rcases List.mem_iff_getElem?.mp hfh2 with ⟨i, hi⟩
      by_cases hieq : i = fid
      · subst hieq
        rw [List.getElem?_set_eq_of_lt _ hflen] at hi
        cases hi
        rfl
      · rw [List.getElem?_set_ne (Ne.symm hieq)] at hi
        exact h12 i hieq fh2 hi
    · intro f hf
      by_cases hfe : f = fid
      · subst hfe; simp
      · simp only [hfe, if_neg, if_false]
        exact h16 f hf hfe
    · exact h18
    · simp only []
      omega
    · exact h20
  · intro P B hp
    exact PClause_transfer hp hfh rfl rfl rfl rfl (fun hc => hc)
  · intro fh2 hfh2
    rw [hfh] at hfh2
    cases hfh2
    have := List.getElem?_set_eq_of_lt
      (l := bpm.frames) { fh with pin_count := 0 } hflen
    simpa [hpin] using this

/-- Resolution of a page-table hit: `RecordAccess` on the resident frame
succeeds and the pool reaches the pre-acquire state (the latch-event list is
arbitrary, as no invariant consults it). -/
theorem hit_resolve (bpm : BufferPoolManager) (q : PageId) (fid : FrameId)
    (E : List LatchEvent)
    (hq : QInv bpm) (hlk : ptLookup bpm.page_table q = some fid) :
    ∃ rep, bpm.replacer.RecordAccess fid = some rep ∧
      PreAcq { bpm with replacer := rep, events := E } q fid := by
  obtain ⟨hq1, hq2, hq3, hq4, hq5, hq6, hq7, hq8, hq9, hq10, hq11, hq12,
    hq13, hq14, hq15, hq16, hq17⟩ := hq
  have hmem : (q, fid) ∈ bpm.page_table := ptLookup_mem hlk
  have hfN : fid < bpm.num_frames := hq6 _ hmem
  have hflen : fid < bpm.frames.length := by rw [hq1]; exact hfN
  have htr : fid ∈ bpm.replacer.node_store := hq13 _ hmem
  have hlt : fid < bpm.replacer.replacer_size := by rw [hq2]; exact hfN
  obtain ⟨rep, hra, hrs, hrk, hrns, hrts, hrhf, hrho, hrfl, hrcu⟩ :=
    RecordAccess_tracked_spec hlt htr
  refine ⟨rep, hra, ?_, ?_, ?_, hq4, hq5, hq6, hq7, hq8, hq9, hq10, hlk,
    ?_, ?_, ?_, ?_, ?_, ?_, ?_, ?_⟩
  · exact hq1
  · rw [hrs]; exact hq2
  · rw [hrk]; exact hq3
  · exact fun i hi fh hfh => frames_pin_zero_of_mem hq11 i fh hfh
  · exact ⟨bpm.frames[fid], List.getElem?_eq_getElem hflen,
      hq11 _ (List.getElem_mem hflen)⟩
  · rw [hrns]; exact hq12
  · rw [hrns]; exact hq13
  · rw [hrns, hrfl]
    exact fun f hf _ => hq14 f hf
  · left
    rw [hrfl, hrcu, hrns]
    exact ⟨hq14 fid htr, hq16⟩
  · rw [hrns]; exact hq15
  · rw [hrns, hrk]
    intro x hx
    by_cases hxf : x = fid
    · rw [hxf, hrhf]
      exact trim_hist_ok hq3 (hq17 fid htr).2
    · rw [hrho x hxf]
      exact hq17 x hx

/-- `CheckedReadPage` from a quiescent state: with no frames at all the
fetch returns `std::nullopt` and the pool is unchanged but for the latch
trace; otherwise it yields a valid guard on `q` and the one-guard
invariant.  Either way every page's tracked content is preserved. -/
theorem checkedRead_spec (bpm : BufferPoolManager) (q : PageId)
    (hq : QInv bpm) :
    (bpm.num_frames = 0 ∧
      ∃ bpm1, bpm.CheckedReadPage q = some (none, bpm1) ∧ QInv bpm1 ∧
        (∀ P B, PClause bpm P B → PClause bpm1 P B) ∧
        bpm1.num_frames = bpm.num_frames ∧
        bpm1.page_size = bpm.page_size) ∨
    (∃ fid bpm1, bpm.CheckedReadPage q =
        some (some ⟨(q : Int), fid, true⟩, bpm1) ∧ MidInv bpm1 q fid ∧
      (∀ P B, PClause bpm P B → PClause bpm1 P B) ∧
      bpm1.num_frames = bpm.num_frames ∧ bpm1.page_size = bpm.page_size) := by
  cases hlk : ptLookup bpm.page_table q with
  | some fid =>
    right
    obtain ⟨rep, hra, hpre⟩ := hit_resolve bpm q fid
      (bpm.events ++ [LatchEvent.acquirePool]) hq hlk
    obtain ⟨⟨bpmR, hacq, hmid, hpc2, hN, hps⟩, -⟩ := acquire_assemble
      { bpm with
        replacer := rep,
        events := bpm.events ++ [LatchEvent.acquirePool] } q fid hpre
    have hcomp : bpm.CheckedReadPage q =
        some (some ⟨(q : Int), fid, true⟩,
          bpmR.pushEvent LatchEvent.releasePool) := by
      unfold BufferPoolManager.CheckedReadPage BufferPoolManager.pushEvent
      simp only [hlk, hra, hacq]
    refine ⟨fid, _, hcomp, hmid, ?_, hN, hps⟩
    intro P B hp
    exact hpc2 P B hp
  | none =>
    rcases miss_resolve_spec
        { bpm with events := bpm.events ++ [LatchEvent.acquirePool] } q hq hlk
      with ⟨hN0, hsel⟩ | ⟨fid, bpmB, bpmC, hsel, hprep, hpre, hpres, hCN, hCps⟩
    · left
      have hcomp : bpm.CheckedReadPage q = some (none,
          BufferPoolManager.pushEvent
            { bpm with events := bpm.events ++ [LatchEvent.acquirePool] }
            LatchEvent.releasePool) := by
        unfold BufferPoolManager.CheckedReadPage BufferPoolManager.pushEvent
        simp only [hlk, hsel]
      exact ⟨hN0, _, hcomp, hq, fun P B hp => hp, rfl, rfl⟩
    · right
      obtain ⟨⟨bpmR, hacq, hmid, hpc2, hN, hps⟩, -⟩ :=
        acquire_assemble bpmC q fid hpre
      have hcomp : bpm.CheckedReadPage q =
          some (some ⟨(q : Int), fid, true⟩,
            bpmR.pushEvent LatchEvent.releasePool) := by
        unfold BufferPoolManager.CheckedReadPage BufferPoolManager.pushEvent
        simp only [hlk, hsel, hprep, hacq]
      refine ⟨fid, _, hcomp, hmid, ?_, hN.trans hCN, hps.trans hCps⟩
      intro P B hp
      exact hpc2 P B (hpres P B hp)

/-- `CheckedWritePage` from a quiescent state: as `checkedRead_spec`, and on
success the guarded frame is pinned once and already marked dirty. -/
theorem checkedWrite_spec (bpm : BufferPoolManager) (q : PageId)
    (hq : QInv bpm) :
    (bpm.num_frames = 0 ∧
      ∃ bpm1, bpm.CheckedWritePage q = some (none, bpm1) ∧ QInv bpm1 ∧
        (∀ P B, PClause bpm P B → PClause bpm1 P B) ∧
        bpm1.num_frames = bpm.num_frames ∧
        bpm1.page_size = bpm.page_size) ∨
    (∃ fid bpm1, bpm.CheckedWritePage q =
        some (some ⟨(q : Int), fid, true⟩, bpm1) ∧ MidInv bpm1 q fid ∧
      (∀ P B, PClause bpm P B → PClause bpm1 P B) ∧
      bpm1.num_frames = bpm.num_frames ∧ bpm1.page_size = bpm.page_size ∧
      (∃ fhW, bpm1.frames[fid]? = some fhW ∧ fhW.pin_count = 1 ∧
        fhW.is_dirty = true)) := by
  cases hlk : ptLookup bpm.page_table q with
  | some fid =>
    right
    obtain ⟨rep, hra, hpre⟩ := hit_resolve bpm q fid
      (bpm.events ++ [LatchEvent.acquirePool]) hq hlk
    obtain ⟨-, bpmW, hacq, hmid, hpc2, hN, hps, fhW, hfhW, hWpin, hWdirty,
      -, -⟩ := acquire_assemble
      { bpm with
        replacer := rep,
        events := bpm.events ++ [LatchEvent.acquirePool] } q fid hpre
    have hcomp : bpm.CheckedWritePage q =
        some (some ⟨(q : Int), fid, true⟩,
          bpmW.pushEvent LatchEvent.releasePool) := by
      unfold BufferPoolManager.CheckedWritePage BufferPoolManager.pushEvent
      simp only [hlk, hra, hacq]
    refine ⟨fid, _, hcomp, hmid, ?_, hN, hps, fhW, hfhW, hWpin, hWdirty⟩
    intro P B hp
    exact hpc2 P B hp
  | none =>
    rcases miss_resolve_spec
        { bpm with events := bpm.events ++ [LatchEvent.acquirePool] } q hq hlk
      with ⟨hN0, hsel⟩ | ⟨fid, bpmB, bpmC, hsel, hprep, hpre, hpres, hCN, hCps⟩
    · left
      have hcomp : bpm.CheckedWritePage q = some (none,
          BufferPoolManager.pushEvent
            { bpm with events := bpm.events ++ [LatchEvent.acquirePool] }
            LatchEvent.releasePool) := by
        unfold BufferPoolManager.CheckedWritePage BufferPoolManager.pushEvent
        simp only [hlk, hsel]
      exact ⟨hN0, _, hcomp, hq, fun P B hp => hp, rfl, rfl⟩
    · right
      obtain ⟨-, bpmW, hacq, hmid, hpc2, hN, hps, fhW, hfhW, hWpin, hWdirty,
        -, -⟩ := acquire_assemble bpmC q fid hpre
      have hcomp : bpm.CheckedWritePage q =
          some (some ⟨(q : Int), fid, true⟩,
            bpmW.pushEvent LatchEvent.releasePool) := by
        unfold BufferPoolManager.CheckedWritePage BufferPoolManager.pushEvent
        simp only [hlk, hsel, hprep, hacq]
      refine ⟨fid, _, hcomp, hmid, ?_, hN.trans hCN, hps.trans hCps, fhW,
        hfhW, hWpin, hWdirty⟩
      intro P B hp
      exact hpc2 P B (hpres P B hp)

/-- One interposed fetch-and-drop preserves the quiescent invariant, every
page's tracked content and the pool geometry. -/
theorem stepOp_preserves (bpm bpm2 : BufferPoolManager) (op : PoolOp)
    (hq : QInv bpm) (hstep : stepOp bpm op = some bpm2) :
    QInv bpm2 ∧ (∀ P B, PClause bpm P B → PClause bpm2 P B) ∧
    bpm2.num_frames = bpm.num_frames ∧ bpm2.page_size = bpm.page_size := by
  cases op with
  | fetchRead q =>
    unfold stepOp at hstep
    rcases checkedRead_spec bpm q hq with
      ⟨-, bpm1, hcr, hq1, hpc1, hN1, hps1⟩ |
      ⟨fid, bpm1, hcr, hmid, hpc1, hN1, hps1⟩
    · simp only [hcr] at hstep
      cases hstep
      exact ⟨hq1, hpc1, hN1, hps1⟩
    · simp only [hcr] at hstep
      obtain ⟨g2, bpm3, hdropEq, hq3, hpc3, hN3, hps3, -, -, -⟩ :=
        drop_read_spec bpm1 q fid ⟨(q : Int), fid, true⟩ hmid rfl rfl
      simp only [hdropEq] at hstep
      cases hstep
      exact ⟨hq3, fun P B hp => hpc3 P B (hpc1 P B hp), hN3.trans hN1,
        hps3.trans hps1⟩
  | fetchWrite q =>
    unfold stepOp at hstep
    rcases checkedWrite_spec bpm q hq with
      ⟨-, bpm1, hcr, hq1, hpc1, hN1, hps1⟩ |
      ⟨fid, bpm1, hcr, hmid, hpc1, hN1, hps1, -⟩
    · simp only [hcr] at hstep
      cases hstep
      exact ⟨hq1, hpc1, hN1, hps1⟩
    · simp only [hcr] at hstep
      obtain ⟨g2, bpm3, hdropEq, hq3, hpc3, hN3, hps3, -, -, -⟩ :=
        drop_write_spec bpm1 q fid ⟨(q : Int), fid, true⟩ hmid rfl rfl
      simp only [hdropEq] at hstep
      cases hstep
      exact ⟨hq3, fun P B hp => hpc3 P B (hpc1 P B hp), hN3.trans hN1,
        hps3.trans hps1⟩

/-- Any sequence of interposed fetch-and-drop operations preserves the
quiescent invariant, every page's tracked content and the pool geometry. -/
theorem runOps_preserves (ops : List PoolOp) :
    ∀ bpm bpm2 : BufferPoolManager, QInv bpm → runOps bpm ops = some bpm2 →
      QInv bpm2 ∧ (∀ P B, PClause bpm P B → PClause bpm2 P B) ∧
      bpm2.num_frames = bpm.num_frames ∧
      bpm2.page_size = bpm.page_size := by
  induction ops with
  | nil =>
    intro bpm bpm2 hq hrun
    unfold runOps at hrun
    cases hrun
    exact ⟨hq, fun P B hp => hp, rfl, rfl⟩
  | cons op t ih =>
    intro bpm bpm2 hq hrun
    unfold runOps at hrun
    cases hstep : stepOp bpm op with
    | none =>
      rw [hstep] at hrun
      cases hrun
    | some bpm1 =>
      rw [hstep] at hrun
      obtain ⟨hq1, hpc1, hN1, hps1⟩ := stepOp_preserves bpm bpm1 op hq hstep
      obtain ⟨hq2, hpc2, hN2, hps2⟩ := ih bpm1 bpm2 hq1 hrun
      exact ⟨hq2, fun P B hp => hpc2 P B (hpc1 P B hp), hN2.trans hN1,
        hps2.trans hps1⟩

/-- C1: the round trip of page contents across eviction.  From any quiescent
pool with at least one frame: fetch page `P` for writing
(`CheckedWritePage`), store the bytes `B` through the guard's `GetDataMut`
pointer, drop the guard, then run any sequence of interposed fetch-and-drop
operations (capacity pressure that may evict `P`, writing the dirty victim
back to disk) — fetching `P` again always succeeds and the read guard
observes exactly `B`. -/
theorem c1_write_roundtrip (bpm0 : BufferPoolManager) (P : PageId)
    (B : List Nat) (ops : List PoolOp) (g g1 : WritePageGuard)
    (bpm1 bpm2 bpm3 bpm4 : BufferPoolManager)
    (hq0 : QInv bpm0)
    (hN : 1 ≤ bpm0.num_frames)
    (hw : bpm0.CheckedWritePage P = some (some g, bpm1))
    (hstore : g.writeThrough bpm1 B = some bpm2)
    (hdrop : WritePageGuard.Drop g bpm2 = some (g1, bpm3))
    (hrun : runOps bpm3 ops = some bpm4) :
    ∃ g2 bpm5, bpm4.CheckedReadPage P = some (some g2, bpm5) ∧
      g2.GetData bpm5 = some B := by
  rcases checkedWrite_spec bpm0 P hq0 with ⟨hN0, -⟩ |
    ⟨fid, bpm1', hcomp, hmid, hpc1, hN1, hps1, fhW, hfhW, hWpin, hWdirty⟩
  · omega
  · rw [hcomp] at hw
    simp only [Option.some.injEq, Prod.mk.injEq] at hw
    obtain ⟨hg, hb1⟩ := hw
    subst hb1
    subst hg
    -- the store through the guard
    have hflen : fid < bpm1'.frames.length :=
      (List.getElem?_eq_some.mp hfhW).1
    have hwt : WritePageGuard.writeThrough ⟨(P : Int), fid, true⟩ bpm1' B =
        some (bpm1'.setFrame fid { fhW with data := B }) := by
      simp [WritePageGuard.writeThrough, hfhW]
    rw [hwt] at hstore
    cases hstore
    obtain ⟨-, -, -, -, -, -, -, -, -, -, h11, -, -, -, -, -, -, -, -, -⟩ :=
      id hmid
    have hmid2 : MidInv (bpm1'.setFrame fid { fhW with data := B }) P fid :=
      MidInv_set_same_pin hmid hWpin
    have hpb2 : PClause (bpm1'.setFrame fid { fhW with data := B }) P B := by
      unfold PClause
      rw [show (bpm1'.setFrame fid { fhW with data := B }).page_table =
        bpm1'.page_table from rfl, h11]
      refine ⟨{ fhW with data := B },
        List.getElem?_set_eq_of_lt _ hflen, rfl, ?_⟩
      intro hc
      have hc' : fhW.is_dirty = false := hc
      rw [hWdirty] at hc'
      cases hc'
    -- the drop
    obtain ⟨g2, bpm3', hdropEq, hq3, hpc3, hN3, hps3, -, -, -⟩ :=
      drop_write_spec (bpm1'.setFrame fid { fhW with data := B }) P fid
        ⟨(P : Int), fid, true⟩ hmid2 rfl rfl
    rw [hdropEq] at hdrop
    simp only [Option.some.injEq, Prod.mk.injEq] at hdrop
    obtain ⟨-, hb3⟩ := hdrop
    subst hb3
    have hpb3 : PClause bpm3' P B := hpc3 P B hpb2
    -- the interposed traffic
    obtain ⟨hq4, hpc4, hN4, hps4⟩ := runOps_preserves ops bpm3' bpm4 hq3 hrun
    have hpb4 : PClause bpm4 P B := hpc4 P B hpb3
    -- the final fetch
    rcases checkedRead_spec bpm4 P hq4 with ⟨hN40, -⟩ |
      ⟨fid2, bpm5, hcr, hmid5, hpc5, hN5, hps5⟩
    · rw [hN4, hN3] at hN40
      have hN40' : bpm1'.num_frames = 0 := hN40
      rw [hN1] at hN40'
      omega
    · have hpb5 : PClause bpm5 P B := hpc5 P B hpb4
      obtain ⟨-, -, -, -, -, -, -, -, -, -, h11f, -, -, -, -, -, -, -, -,
        -⟩ := hmid5
      unfold PClause at hpb5
      rw [h11f] at hpb5
      obtain ⟨fhF, hfhF, hdF, -⟩ := hpb5
      refine ⟨⟨(P : Int), fid2, true⟩, bpm5, hcr, ?_⟩
      simp [ReadPageGuard.GetData, hfhF, hdF]

/-! A concrete round-trip run for the witness: on a three-frame pool, write
`[9, 9, 9, 9]` into page `0`, drop the guard, fetch pages `1`, `2` and `3`
(filling the pool and forcing an eviction), then fetch page `0` again. -/

def c1wres : Option WritePageGuard × BufferPoolManager :=
  (bpmEx3.CheckedWritePage 0).getD (none, bpmEx3)

def c1g : WritePageGuard := c1wres.1.getD ⟨0, 0, false⟩

def c1bpm1 : BufferPoolManager := c1wres.2

def c1bpm2 : BufferPoolManager :=
  (c1g.writeThrough c1bpm1 [9, 9, 9, 9]).getD c1bpm1

def c1dres : WritePageGuard × BufferPoolManager :=
  (WritePageGuard.Drop c1g c1bpm2).getD (c1g, c1bpm2)

def c1ops : List PoolOp := [.fetchRead 1, .fetchRead 2, .fetchRead 3]

def c1bpm4 : BufferPoolManager := (runOps c1dres.2 c1ops).getD c1dres.2

theorem c1_write_roundtrip_witness :
    ∃ g2 bpm5, c1bpm4.CheckedReadPage 0 = some (some g2, bpm5) ∧
      g2.GetData bpm5 = some [9, 9, 9, 9] :=
  c1_write_roundtrip bpmEx3 0 [9, 9, 9, 9] c1ops c1g c1dres.1 c1bpm1 c1bpm2
    c1dres.2 c1bpm4
    (by unfold QInv residentF; decide) (by decide) rfl rfl rfl rfl

end Bustub
